import Mathlib

/-!
Shallow embedding of `base_kivy_app` (matham/base_kivy_app) for checking the
natural-language specification against the code.

The embedding covers:
* `base_kivy_app/config.py`: `_get_settings_attrs`, `read_config_from_object`,
  `fill_config_from_declared_objects`, `read_config_from_file`,
  `apply_config`, `apply_config_to_declared_objects`;
* `base_kivy_app/app.py`: `report_exception_in_app`, `app_error`,
  `app_error_async`, `BaseKivyApp.json_config_path`, `BaseKivyApp.init_config`;
* `base_kivy_app/graphics.py`: `ErrorIndicatorBehavior.add_item`,
  `TimeLine.add_slice`, `TimeLine._update_attrs`.

Python dicts are modelled as association lists with unique keys (first-match
lookup); Python exceptions as `Except`; arbitrary Python scalar values as a
type parameter `α`.
-/

namespace BKA

/-! ## Python dict model (association lists) -/

/-- Lookup of a key in a Python dict, modelled as first-match lookup in an
association list. -/
def lookupK {β : Type} (d : List (String × β)) (k : String) : Option β :=
  match d with
  | [] => none
  | (k2, v) :: rest => if k2 = k then some v else lookupK rest k

/-- Python `k in d` for a dict `d`. -/
def hasK {β : Type} (d : List (String × β)) (k : String) : Bool :=
  (lookupK d k).isSome

/-- Python `d[k] = v`: replaces the value of an existing key in place,
otherwise appends the new key at the end (Python dicts preserve insertion
order). -/
def dictSet {β : Type} (d : List (String × β)) (k : String) (v : β) :
    List (String × β) :=
  if hasK d k then d.map (fun kv => if kv.1 = k then (k, v) else kv)
  else d ++ [(k, v)]

/-- Python `d.update(e)`: sets every key of `e` in `d`, in order. -/
def dictUpdate {β : Type} (d e : List (String × β)) : List (String × β) :=
  e.foldl (fun acc kv => dictSet acc kv.1 kv.2) d

/-! ## Config values

A value stored in a config dict (and, generally, a Python attribute value):
either a scalar, a dict of named values, or a list of values.  This is the
value universe of the YAML config tree of `config.py`. -/

/-- A Python value as it occurs in config trees: scalar, dict, or list. -/
inductive CVal (α : Type) : Type where
  | v (a : α) : CVal α
  | cfg (c : List (String × CVal α)) : CVal α
  | lst (l : List (CVal α)) : CVal α

/-- A config dict: what `read_config_from_object` returns. -/
abbrev ConfigDict (α : Type) : Type := List (String × CVal α)

/-! ## Classes: `__config_props__` and `_get_settings_attrs`

A Python class is modelled by the `__config_props__` lists found in the
`__dict__` of the class and of its bases (in the order `[cls] +
list(_get_bases(cls))` of `config.py`), plus the resolved class attributes
(`getattr(cls, name)`).  A class attribute is either a Kivy `Property`
object (carrying its `defaultvalue`) or a plain value. -/

/-- A resolved class attribute: a Kivy `Property` object or a plain value. -/
inductive ClsAttr (α : Type) : Type where
  | prop (defaultvalue : CVal α) : ClsAttr α
  | plain (val : CVal α) : ClsAttr α

/-- What `read_config_from_object` stores for a class attribute (config.py
lines 171-175): the `defaultvalue` for a `Property`, the raw value
otherwise. -/
def clsAttrVal {α : Type} : ClsAttr α → CVal α
  | .prop dv => dv
  | .plain v => v

/-- A Python class, as `config.py` observes it. `config_props_chain` lists,
for `cls` and then each base in `_get_bases` order, the `__config_props__`
entry of that class's own `__dict__` (`none` when absent, config.py line
102). `attrs` are the attributes reachable with `getattr(cls, ·)`
(`hasattr(cls, ·)` is key membership). -/
structure PyClass (α : Type) : Type where
  config_props_chain : List (Option (List String))
  attrs : List (String × ClsAttr α)

/-- Inner loop of `_get_settings_attrs` (config.py lines 105-111): walk one
`__config_props__` list, skipping attributes already collected, raising when
`hasattr(cls, attr)` fails. -/
def collectProps {α : Type} (cls : PyClass α) (props acc : List String) :
    Except String (List String) :=
  match props with
  | [] => .ok acc
  | attr :: rest =>
      if acc.contains attr then collectProps cls rest acc
      else if hasK cls.attrs attr then collectProps cls rest (acc ++ [attr])
      else .error ("Missing attribute <" ++ attr ++ ">")

/-- Outer loop of `_get_settings_attrs` (config.py lines 101-103): walk
`[cls] + list(_get_bases(cls))`, skipping classes without
`__config_props__` in their `__dict__`. -/
def collectChain {α : Type} (cls : PyClass α) :
    List (Option (List String)) → List String → Except String (List String)
  | [], acc => .ok acc
  | none :: rest, acc => collectChain cls rest acc
  | some props :: rest, acc =>
      match collectProps cls props acc with
      | .ok acc2 => collectChain cls rest acc2
      | .error e => .error e

/-- `_get_settings_attrs` (config.py lines 94-112): the list of configurable
properties of a class, collected from `__config_props__` of the class and
its bases, deduplicated, raising on a missing attribute. -/
def _get_settings_attrs {α : Type} (cls : PyClass α) :
    Except String (List String) :=
  collectChain cls cls.config_props_chain []

/-! ## The object graph

A configurable object is a class or an instance.  An instance carries its
class, an attribute dictionary (`getattr`/`setattr` on the instance; Kivy
property values are read and written through it, with the class-level
`Property.defaultvalue` as fallback for a property never written), the
result of `get_config_classes`/`get_config_instances` when that method
exists (`none` when absent), and the data of the optional hooks of
`config.py`: `get_config_properties` (the dict it returns),
`apply_config_properties` (the set of keys it reports consumed), and
`apply_config_instance` (the set of child names for which it returns a
truthy value).  `truthy` is the Python truth value of the instance (the
`not obj` check of config.py line 231).

Declared children (`get_config_classes`/`get_config_instances` values) are
a single object, a dict of objects, or a list/tuple of objects (config.py
lines 137-147).  A slot holding the root object itself (the `o is root_obj`
identity checks and the `obj in list(objects.values())` check) is the
explicit marker `Entry.selfRef`; other aliasing between distinct nodes is
outside the model (the object graph is a tree plus direct self references,
which is the shape the code's identity checks are written for). -/

mutual
/-- A configurable Python object: a class or an instance. -/
inductive PObj (α : Type) : Type where
  | cls (c : PyClass α) (children : Option (List (String × Child α))) : PObj α
  | inst (icls : PyClass α) (attrs : List (String × CVal α))
      (children : Option (List (String × Child α)))
      (get_config_properties : Option (List (String × CVal α)))
      (apply_config_properties : Option (List String))
      (apply_config_instance : Option (List String))
      (truthy : Bool) : PObj α

/-- One value of the dict returned by `get_config_classes` /
`get_config_instances`. -/
inductive Child (α : Type) : Type where
  | one (e : Entry α) : Child α
  | dictc (m : List (String × Entry α)) : Child α
  | listc (l : List (Entry α)) : Child α

/-- A slot inside a declared-children value: either the root object itself
(identity, `o is root_obj`) or some other object. -/
inductive Entry (α : Type) : Type where
  | selfRef : Entry α
  | obj (o : PObj α) : Entry α
end

/-- The declared children of an object: `get_config_classes()` for a class,
`get_config_instances()` for an instance, `none` when the method is absent
(the `hasattr` checks of config.py lines 156-161 and 218-223). -/
def objectsOf {α : Type} : PObj α → Option (List (String × Child α))
  | .cls _ ch => ch
  | .inst _ _ ch _ _ _ _ => ch

/-- Replaces the declared-children slot of an object (used to thread the
updates that `apply_config` makes to the child objects). -/
def setChildren {α : Type} :
    PObj α → List (String × Child α) → PObj α
  | .cls c _, cs => .cls c (some cs)
  | .inst c attrs _ gcp acp aci t, cs => .inst c attrs (some cs) gcp acp aci t

/-- Whether `obj in list(objects.values())` holds (config.py lines 166 and
228): the root object is a value of its own declared-children dict.  Only a
whole-slot self reference counts: a dict or list containing the root is a
different value from the root. -/
def childIsSelf {α : Type} : Child α → Bool
  | .one .selfRef => true
  | _ => false

/-- `obj in list(objects.values())` over the whole children dict. -/
def selfInValues {α : Type} (cs : List (String × Child α)) : Bool :=
  cs.any (fun kv => childIsSelf kv.2)

/-- `getattr(obj, a)` on an instance: the instance attribute dict first,
then the class attribute (a Kivy property never explicitly written reads as
its `defaultvalue`; a plain class attribute reads as its value).  `none`
means `AttributeError`. -/
def getattrInst {α : Type} (cls : PyClass α)
    (attrs : List (String × CVal α)) (a : String) : Option (CVal α) :=
  match lookupK attrs a with
  | some v => some v
  | none => (lookupK cls.attrs a).map clsAttrVal

/-- `getattr(obj, a)` for instances (`none` on classes is unused: the code
never reads instance-style attributes of a class object). -/
def getattrObj {α : Type} : PObj α → String → Option (CVal α)
  | .cls _ _, _ => none
  | .inst c attrs _ _ _ _ _, a => getattrInst c attrs a

/-! ## `read_config_from_object` (config.py lines 137-184) -/

/-- The class branch of the property loop (config.py lines 169-175):
`config[attr] = getattr(obj, attr).defaultvalue` for a `Property`, the raw
value otherwise; the assignment is unconditional. -/
def clsPropsLoop {α : Type} (c : PyClass α) (props : List String)
    (config : ConfigDict α) : Except String (ConfigDict α) :=
  match props with
  | [] => .ok config
  | a :: rest =>
      match lookupK c.attrs a with
      | none => .error ("AttributeError: " ++ a)
      | some av => clsPropsLoop c rest (dictSet config a (clsAttrVal av))

/-- The instance branch of the property loop (config.py lines 181-183):
`if attr not in config: config[attr] = getattr(obj, attr)`. -/
def instPropsLoop {α : Type} (c : PyClass α)
    (attrs : List (String × CVal α)) (props : List String)
    (config : ConfigDict α) : Except String (ConfigDict α) :=
  match props with
  | [] => .ok config
  | a :: rest =>
      if hasK config a then instPropsLoop c attrs rest config
      else
        match getattrInst c attrs a with
        | none => .error ("AttributeError: " ++ a)
        | some v => instPropsLoop c attrs rest (dictSet config a v)

/-- The property part of `read_config_from_object` (config.py lines
169-184), appending to an already-filled `config`: for a class, each
collected property is assigned unconditionally; for an instance, the
`get_config_properties` dict is merged in first (config.py lines 178-179)
and then each collected property not already a key of `config` is read with
`getattr`. -/
def read_props_part {α : Type} (obj : PObj α) (config : ConfigDict α) :
    Except String (ConfigDict α) :=
  match obj with
  | .cls c _ =>
      match _get_settings_attrs c with
      | .error e => .error e
      | .ok props => clsPropsLoop c props config
  | .inst c attrs _ gcp _ _ _ =>
      match _get_settings_attrs c with
      | .error e => .error e
      | .ok props =>
          let config2 := match gcp with
            | none => config
            | some d => dictUpdate config d
          instPropsLoop c attrs props config2

mutual
/-- `read_config_from_object(obj, get_props_only)` (config.py lines
150-184).  With `get_props_only` the children block is skipped; otherwise
the declared children are serialized first
(`fill_config_from_declared_objects`) and, when the object is a value of
its own children dict, only the children part is returned (config.py lines
166-167). -/
def read_config_from_object {α : Type} (obj : PObj α)
    (get_props_only : Bool) : Except String (ConfigDict α) :=
  if get_props_only then read_props_part obj []
  else
    match obj with
    | .cls c none => read_props_part (.cls c none) []
    | .cls c (some cs) => read_with_children (.cls c (some cs)) cs
    | .inst c attrs none gcp acp aci t =>
        read_props_part (.inst c attrs none gcp acp aci t) []
    | .inst c attrs (some cs) gcp acp aci t =>
        read_with_children (.inst c attrs (some cs) gcp acp aci t) cs
termination_by sizeOf obj
decreasing_by all_goals simp_wf <;> omega

/-- The children-then-props sequence of `read_config_from_object` for an
object whose declared children exist (config.py lines 163-167 followed by
169-184). -/
def read_with_children {α : Type} (root : PObj α)
    (cs : List (String × Child α)) : Except String (ConfigDict α) :=
  match fill_config_from_declared_objects root cs with
  | .error e => .error e
  | .ok config =>
      if selfInValues cs then .ok config else read_props_part root config
termination_by sizeOf cs + 1
decreasing_by all_goals simp_wf <;> omega

/-- `fill_config_from_declared_objects` (config.py lines 137-147): for each
declared child name, store the serialized child under that name (building a
fresh dict, one distinct key per child). -/
def fill_config_from_declared_objects {α : Type} (root : PObj α)
    (cs : List (String × Child α)) : Except String (ConfigDict α) :=
  match cs with
  | [] => .ok []
  | (name, c) :: rest =>
      match read_child root c with
      | .error e => .error e
      | .ok v =>
          match fill_config_from_declared_objects root rest with
          | .error e => .error e
          | .ok restv => .ok ((name, v) :: restv)
termination_by sizeOf cs
decreasing_by all_goals simp_wf <;> omega

/-- Serializing one declared child (config.py lines 138-147): a dict child
maps each key to a config dict, a list/tuple child maps to a list of config
dicts, any other child to a single config dict. -/
def read_child {α : Type} (root : PObj α) (c : Child α) :
    Except String (CVal α) :=
  match c with
  | .one e =>
      match read_entry root e with
      | .error e2 => .error e2
      | .ok d => .ok (.cfg d)
  | .dictc m =>
      match read_entry_map root m with
      | .error e2 => .error e2
      | .ok d => .ok (.cfg d)
  | .listc l =>
      match read_entry_list root l with
      | .error e2 => .error e2
      | .ok d => .ok (.lst d)
termination_by sizeOf c
decreasing_by all_goals simp_wf <;> omega

/-- The dict comprehension of config.py lines 140-142. -/
def read_entry_map {α : Type} (root : PObj α) :
    List (String × Entry α) → Except String (ConfigDict α)
  | [] => .ok []
  | (k, e) :: rest =>
      match read_entry root e with
      | .error e2 => .error e2
      | .ok d =>
          match read_entry_map root rest with
          | .error e2 => .error e2
          | .ok restv => .ok ((k, .cfg d) :: restv)
termination_by m => sizeOf m
decreasing_by all_goals simp_wf <;> omega

/-- The list comprehension of config.py lines 144-145. -/
def read_entry_list {α : Type} (root : PObj α) :
    List (Entry α) → Except String (List (CVal α))
  | [] => .ok []
  | e :: rest =>
      match read_entry root e with
      | .error e2 => .error e2
      | .ok d =>
          match read_entry_list root rest with
          | .error e2 => .error e2
          | .ok restv => .ok (.cfg d :: restv)
termination_by l => sizeOf l
decreasing_by all_goals simp_wf <;> omega

/-- `read_config_from_object(o, o is root_obj)` for one slot: the self
reference is read with `get_props_only=True` (so it is not re-expanded),
any other object with `get_props_only=False`. -/
def read_entry {α : Type} (root : PObj α) (e : Entry α) :
    Except String (ConfigDict α) :=
  match e with
  | .selfRef => read_props_part root []
  | .obj o => read_config_from_object o false
termination_by sizeOf e
decreasing_by all_goals simp_wf <;> omega
end

/-! ## `apply_config` (config.py lines 203-244) -/

/-- `name in config` for a loaded config value (config.py line 205).  The
configs reaching this check are dicts; `in` over a list value tests element
membership and is false for these names, and `in` over a non-string scalar
raises — the model returns `none` for every non-dict, which agrees with the
code on every dict-shaped config (the only shape `read_config_from_object`
and a well-formed YAML file produce at these positions). -/
def cvalLookup {α : Type} (config : CVal α) (name : String) :
    Option (CVal α) :=
  match config with
  | .cfg c => lookupK c name
  | _ => none

/-- `hasattr(root_obj, 'apply_config_instance') and
root_obj.apply_config_instance(name, obj, config[name])` (config.py lines
206-207): whether the hook exists and returns a truthy value for this child
name. -/
def aciHandles {α : Type} : PObj α → String → Bool
  | .inst _ _ _ _ _ (some names) _, n => names.contains n
  | _, _ => false

/-- One `setattr(obj, k, v)` on an instance attribute dict. -/
def setattrK {α : Type} (attrs : List (String × CVal α)) (k : String)
    (v : CVal α) : List (String × CVal α) :=
  dictSet attrs k v

/-- The tail of `apply_config` (config.py lines 216-223 for `objects`, then
231-244): nothing is done to a class or to a falsy object; otherwise
every key of the config dict that is not a declared child name
(`used_keys = set(objects.keys())`, config.py line 234) and not reported
consumed by `apply_config_properties` (lines 237-239) is set on the object
with `setattr` (lines 241-244).  A non-dict config raises at
`config.items()` (line 235). -/
def apply_props_only {α : Type} (obj : PObj α) (config : CVal α) :
    Except String (PObj α) :=
  match obj with
  | .cls c ch => .ok (.cls c ch)
  | .inst c attrs ch gcp acp aci t =>
      if t = false then .ok (.inst c attrs ch gcp acp aci t)
      else
        match config with
        | .cfg cv =>
            let used1 : List String := (ch.getD []).map Prod.fst
            let config_values := cv.filter (fun kv => !(used1.contains kv.1))
            let used2 : List String := acp.getD []
            let toSet := config_values.filter
              (fun kv => !(used2.contains kv.1))
            .ok (.inst c
              (toSet.foldl (fun ats kv => setattrK ats kv.1 kv.2) attrs)
              ch gcp acp aci t)
        | _ => .error "AttributeError: config_values comprehension"

/-- `apply_config` called by `apply_config_to_declared_objects` on a plain
dict or list/tuple child (config.py line 208, with `obj` the raw
collection): such a value has no `get_config_instances`, so `objects` is
`None`; an empty collection is falsy and returns at line 231; otherwise the
`setattr` loop raises `AttributeError` on its first item (a dict/list
accepts no attribute assignment), and a non-dict config raises at
`config.items()`.  The collection itself is never modified. -/
def apply_to_collection {α : Type} (isEmpty : Bool) (config : CVal α) :
    Except String Unit :=
  if isEmpty then .ok ()
  else
    match config with
    | .cfg [] => .ok ()
    | .cfg (_ :: _) => .error "AttributeError: setattr on a collection"
    | _ => .error "AttributeError: config_values comprehension"

mutual
/-- `apply_config(obj, config, set_props_only)` (config.py lines 211-244).
When the declared children exist and `set_props_only` is false they are
applied first (`apply_config_to_declared_objects`); if the object is a
value of its own children dict the call returns there (lines 225-229);
otherwise the property part follows (lines 231-244, `apply_props_only`). -/
def apply_config {α : Type} (obj : PObj α) (config : CVal α)
    (set_props_only : Bool) : Except String (PObj α) :=
  if set_props_only then apply_props_only obj config
  else
    match obj with
    | .cls c none => apply_props_only (.cls c none) config
    | .cls c (some cs) => apply_with_children (.cls c (some cs)) cs config
    | .inst c attrs none gcp acp aci t =>
        apply_props_only (.inst c attrs none gcp acp aci t) config
    | .inst c attrs (some cs) gcp acp aci t =>
        apply_with_children (.inst c attrs (some cs) gcp acp aci t) cs config
termination_by sizeOf obj
decreasing_by all_goals simp_wf <;> omega

/-- The children-then-props sequence of `apply_config` for an object whose
declared children exist (config.py lines 225-229 followed by 231-244). -/
def apply_with_children {α : Type} (root : PObj α)
    (cs : List (String × Child α)) (config : CVal α) :
    Except String (PObj α) :=
  match apply_config_to_declared_objects root cs config with
  | .error e => .error e
  | .ok (r, cs2) =>
      let obj2 := setChildren r cs2
      if selfInValues cs then .ok obj2 else apply_props_only obj2 config
termination_by sizeOf cs + 1
decreasing_by all_goals simp_wf <;> omega

/-- `apply_config_to_declared_objects(root_obj, classes, config)` (config.py
lines 203-208): for each declared child whose name is a key of the config,
unless the `apply_config_instance` hook handles it, apply the child's
config to it.  The root object is threaded through because a self-reference
child applies onto the root itself. -/
def apply_config_to_declared_objects {α : Type} (root : PObj α)
    (cs : List (String × Child α)) (config : CVal α) :
    Except String (PObj α × List (String × Child α)) :=
  match cs with
  | [] => .ok (root, [])
  | (name, c) :: rest =>
      match cvalLookup config name with
      | none =>
          match apply_config_to_declared_objects root rest config with
          | .error e => .error e
          | .ok (r2, rest2) => .ok (r2, (name, c) :: rest2)
      | some sub =>
          if aciHandles root name then
            match apply_config_to_declared_objects root rest config with
            | .error e => .error e
            | .ok (r2, rest2) => .ok (r2, (name, c) :: rest2)
          else
            match apply_child root c sub with
            | .error e => .error e
            | .ok (r1, c1) =>
                match apply_config_to_declared_objects r1 rest config with
                | .error e => .error e
                | .ok (r2, rest2) => .ok (r2, (name, c1) :: rest2)
termination_by sizeOf cs
decreasing_by all_goals simp_wf <;> omega

/-- `apply_config(obj, config[name], obj is root_obj)` for one declared
child (config.py line 208): a self reference applies props-only onto the
root; another object recurses with `set_props_only=False`; a raw dict or
list child goes through the collection behaviour of `apply_to_collection`
and is left unchanged. -/
def apply_child {α : Type} (root : PObj α) (c : Child α) (sub : CVal α) :
    Except String (PObj α × Child α) :=
  match c with
  | .one .selfRef =>
      match apply_props_only root sub with
      | .error e => .error e
      | .ok r2 => .ok (r2, .one .selfRef)
  | .one (.obj o) =>
      match apply_config o sub false with
      | .error e => .error e
      | .ok o2 => .ok (root, .one (.obj o2))
  | .dictc m =>
      match apply_to_collection m.isEmpty sub with
      | .error e => .error e
      | .ok _ => .ok (root, .dictc m)
  | .listc l =>
      match apply_to_collection l.isEmpty sub with
      | .error e => .error e
      | .ok _ => .ok (root, .listc l)
termination_by sizeOf c
decreasing_by all_goals simp_wf <;> omega
end

/-! ## `read_config_from_file` (config.py lines 187-200)

The file system and the YAML loader are passed in as data: `file` is the
outcome of `open(filename)` + `fh.read()` (`none` models the `IOError`
caught at line 199, in particular a missing file); `yaml_loads` (imported
from `tree_config.utils`, not part of this repository) is modelled as a
function returning `none` exactly when the YAML document parses to `None`
(an empty file). -/

/-- `read_config_from_file` (config.py lines 187-200): `{}` on `IOError`,
`{}` when the parsed YAML is `None`, the parsed dict otherwise. -/
def read_config_from_file {α : Type} (file : Option String)
    (yaml_loads : String → Option (ConfigDict α)) : ConfigDict α :=
  match file with
  | none => []
  | some contents =>
      match yaml_loads contents with
      | none => []
      | some opts => opts

/-! ## `app_error` / `app_error_async` / `report_exception_in_app`
(app.py lines 44-127)

A Python callable is modelled as a function into `Except Exn β`: `.ok`
is a normal return, `.error` a raised exception.  An exception carries the
data the wrappers extract from it: `tbStr` stands for
`"".join(traceback.format_list(traceback.extract_tb(exc_info[2])))` and
`excLine` for `"".join(traceback.format_exception_only(*exc_info[:2]))`.
The wrapper's own formatted call stack
(`traceback.format_list(stack[:-1])`) is the `stack` argument. -/

/-- A raised Python exception, with the traceback strings the `app_error`
wrappers format out of `sys.exc_info()`. -/
structure Exn where
  msg : String
  tbStr : String
  excLine : String
  deriving DecidableEq, Repr

/-- Where `report_exception_in_app` delivers the error (app.py lines
53-64): to `App.get_running_app().handle_exception` when an app is running,
to `logging.error` otherwise. -/
inductive Delivered where
  | toApp (e : Exn) (exc_info : Option String) : Delivered
  | logged (e : Exn) (exc_info : Option String) : Delivered
  deriving DecidableEq, Repr

/-- `report_exception_in_app(e, exc_info)` with `threaded=False` (app.py
lines 44-69; with `threaded=True` the same closure runs once on the Kivy
clock): calls the running app's `handle_exception`, or logs the error when
no app is running. -/
def report_exception_in_app (app_running : Bool) (e : Exn)
    (exc_info : Option String) : Delivered :=
  if app_running then .toApp e exc_info else .logged e exc_info

/-- The error string built by `app_error` and `app_error_async` (app.py
lines 87-95 and 116-124): the header, the formatted
`stack[:-1] + extract_tb(...)` frames, then the exception line. -/
def format_wrapper_err (stack : String) (e : Exn) : String :=
  "Traceback (most recent call last):" ++ stack ++ e.tbStr ++ e.excLine

/-- `app_error(func)` applied to arguments (app.py lines 72-98): the
`try...except Exception` body of `safe_func`.  A normal return is passed
through; a raised exception is caught (the wrapper itself returns `None`)
and reported through `report_exception_in_app`. -/
def app_error {β γ : Type} (func : γ → Except Exn β) (stack : String)
    (app_running : Bool) (x : γ) : Option β × Option Delivered :=
  match func x with
  | .ok v => (some v, none)
  | .error e =>
      (none, some (report_exception_in_app app_running e
        (some (format_wrapper_err stack e))))

/-- `app_error_async(func)` applied to arguments (app.py lines 101-127):
the coroutine body is identical to `app_error` with `await` inserted; a
coroutine outcome is modelled by the same `Except` value. -/
def app_error_async {β γ : Type} (func : γ → Except Exn β) (stack : String)
    (app_running : Bool) (x : γ) : Option β × Option Delivered :=
  match func x with
  | .ok v => (some v, none)
  | .error e =>
      (none, some (report_exception_in_app app_running e
        (some (format_wrapper_err stack e))))

/-! ## `BaseKivyApp.json_config_path` and `init_config` (app.py lines
136-140 and 218-230)

The INI file is modelled as its parsed sections (what
`ConfigParser.read` yields for `config.ini`).  `init_config` builds a
fresh parser, ensures section `'App'` and option `'json_config_path'`
(seeded with the current property value), merges the file over it, writes
it back, and stores `parser.get('App', 'json_config_path')` into
`json_config_path`. -/

/-- An in-memory `ConfigParser` state: sections mapping to option dicts. -/
abbrev IniData : Type := List (String × List (String × String))

/-- `parser.has_section(s)`. -/
def has_section (p : IniData) (s : String) : Bool := hasK p s

/-- `parser.add_section(s)`. -/
def add_section (p : IniData) (s : String) : IniData := dictSet p s []

/-- `parser.has_option(s, o)`. -/
def has_option (p : IniData) (s : String) (o : String) : Bool :=
  match lookupK p s with
  | none => false
  | some opts => hasK opts o

/-- `parser.set(s, o, v)` (the section is present at every use site). -/
def set_opt (p : IniData) (s o v : String) : IniData :=
  match lookupK p s with
  | none => p
  | some opts => dictSet p s (dictSet opts o v)

/-- `parser.get(s, o)`. -/
def get_option (p : IniData) (s o : String) : Option String :=
  match lookupK p s with
  | none => none
  | some opts => lookupK opts o

/-- `parser.read(filename)`: merges the file's sections over the current
state (options from the file override, unknown sections/options are
added). -/
def parser_read (p : IniData) (file : IniData) : IniData :=
  file.foldl
    (fun acc sec =>
      match lookupK acc sec.1 with
      | none => dictSet acc sec.1 sec.2
      | some opts => dictSet acc sec.1 (dictUpdate opts sec.2)) p

/-- The default value of the `json_config_path` `StringProperty` (app.py
line 136). -/
def json_config_path_default : String := "config.yaml"

/-- `BaseKivyApp.init_config` (app.py lines 218-230), restricted to its
effect on `json_config_path`: `current` is the value of the property when
the method runs (the class default, unless previously assigned) and
`iniFile` the parsed content of `config.ini`.  Returns the new value of
`self.json_config_path`.  (The write-back of the merged parser to
`config.ini` and `ensure_config_file` touch the file system and are not
part of the returned value.) -/
def init_config (current : String) (iniFile : IniData) : Option String :=
  let p : IniData := []
  let p := if has_section p "App" then p else add_section p "App"
  let p := if has_option p "App" "json_config_path" then p
    else set_opt p "App" "json_config_path" current
  let p := parser_read p iniFile
  get_option p "App" "json_config_path"

/-! ## `ErrorIndicatorBehavior.add_item` (graphics.py lines 661-688) -/

/-- A Python exception kind, for the graphics models. -/
inductive PyExc where
  | valueError : PyExc
  | typeError : PyExc
  | attributeError : PyExc
  deriving DecidableEq, Repr

/-- One entry of `self._container.data` (graphics.py lines 685-686):
`text` and `icon_name`; `icon_names` is the empty class dict, so
`icon_names.get(level, level)` is `level` itself. -/
structure LogItem where
  text : String
  icon_name : String
  deriving DecidableEq, Repr

/-- The state of an `ErrorIndicatorBehavior` that `add_item` reads and
writes: `count`, `_level`, whether the notification animation was started,
and `_container.data` (`none` when `_container` is still the class default
`None`, in which case appending raises `AttributeError`). -/
structure ErrorIndicator where
  count : Nat
  level_ : String
  anim_running : Bool
  container : Option (List LogItem)
  deriving DecidableEq, Repr

/-- The `levels` class dict (graphics.py line 646). -/
def levels : List (String × Nat) :=
  [("error", 0), ("warning", 1), ("info", 2)]

/-- The `_level`/animation update of `add_item` (graphics.py lines
680-684): when idle and the level outranks `info`, adopt it and start the
animation; otherwise adopt a level that outranks the current one. -/
def add_item_notify (st : ErrorIndicator) (level : String) (lv : Nat) :
    ErrorIndicator :=
  if st.level_ = "ok" then
    if lv < 2 then { st with level_ := level, anim_running := true }
    else st
  else
    match lookupK levels st.level_ with
    | some cur => if lv < cur then { st with level_ := level } else st
    | none => st

/-- `ErrorIndicatorBehavior.add_item(text, level)` (graphics.py lines
661-688).  The level check precedes every mutation; a raised exception
carries the state at the moment of the raise. -/
def add_item (st : ErrorIndicator) (text level : String) :
    Except (PyExc × ErrorIndicator) ErrorIndicator :=
  match lookupK levels level with
  | none => .error (.valueError, st)
  | some lv =>
      let st := add_item_notify { st with count := st.count + 1 } level lv
      match st.container with
      | none => .error (.attributeError, st)
      | some items =>
          .ok { st with
            container := some (items ++ [⟨text, level⟩]) }

/-! ## `TimeLine.add_slice` (graphics.py lines 861-897)

`self.slices` is a Kivy `ListProperty` holding `TimeLineSlice` widgets;
`list.insert(index, object)` requires an integer index, so its elements
are modelled as tagged Python values to express the call
`self.slices.insert(s, i)` of line 890, which passes the new slice where
the index belongs.  `box.children` is the Kivy child list (most recently
added first: `add_widget(s, index=i)` inserts at position `i` of
`children`). -/

/-- The fields of a `TimeLineSlice` that `add_slice` sets (graphics.py
lines 884-887; `_color`, set by `_update_attrs`, is display-only and not
modelled). -/
structure TLSlice where
  name : String
  text : String
  duration : Int
  size_hint_x : Int
  deriving DecidableEq, Repr

/-- A Python value that may sit in the `slices` list: an `int` or a
`TimeLineSlice`. -/
inductive PyV where
  | int (i : Int) : PyV
  | sl (s : TLSlice) : PyV
  deriving DecidableEq, Repr

/-- `list.insert(index, object)` of CPython: the index must be an integer
(`TypeError` otherwise); an integer index is clamped into range, negative
indices count from the end. -/
def pyListInsert (l : List PyV) (index : PyV) (x : PyV) :
    Except PyExc (List PyV) :=
  match index with
  | .sl _ => .error .typeError
  | .int i =>
      let n : Nat :=
        if i < 0 then (max (Int.ofNat l.length + i) 0).toNat
        else (min i (Int.ofNat l.length)).toNat
      .ok (l.take n ++ [x] ++ l.drop n)

/-- The state of a `TimeLine` that `add_slice` reads and writes. -/
structure TimeLine where
  slices : List PyV
  slice_names : List String
  box_children : List TLSlice
  deriving DecidableEq, Repr

/-- `TimeLine._update_attrs` (graphics.py lines 855-859):
`slice_names = [w.name for w in reversed(box.children)]` (the `_color`
assignments are display-only and not modelled). -/
def update_attrs_tl (tl : TimeLine) : TimeLine :=
  { tl with slice_names := (tl.box_children.reverse).map TLSlice.name }

/-- `TimeLine.add_slice(name, before, duration, size_hint_x, **kwargs)`
(graphics.py lines 861-897).  With `before=None` the new slice is appended
to `slices` and added to the box at `index=0`; with `before` a name,
`i = slice_names.index(before)` (a `ValueError` when absent) and then
`self.slices.insert(s, i)` runs — the new slice is passed as the index and
`i` as the element, so `list.insert` raises `TypeError` before anything is
inserted (the subsequent `i = old_len - i` and `box.add_widget(s, index=i)`
of lines 891-895 are unreachable). -/
def add_slice (tl : TimeLine) (name : String) (before : Option String)
    (duration : Int) (size_hint_x : Option Int) (text_kw : Option String) :
    Except PyExc TimeLine :=
  let text := text_kw.getD name
  let s : TLSlice :=
    { name := name, text := text, duration := duration,
      size_hint_x := size_hint_x.getD duration }
  match before with
  | some b =>
      match tl.slice_names.indexOf? b with
      | none => .error .valueError
      | some i =>
          match pyListInsert tl.slices (.sl s) (.int (Int.ofNat i)) with
          | .error e => .error e
          | .ok slices2 =>
              .ok (update_attrs_tl { tl with
                slices := slices2,
                box_children :=
                  (tl.box_children.take (tl.slices.length - i)) ++ [s] ++
                    (tl.box_children.drop (tl.slices.length - i)) })
  | none =>
      .ok (update_attrs_tl { tl with
        slices := tl.slices ++ [.sl s],
        box_children := s :: tl.box_children })

/-! ## Example objects used by concrete theorems -/

/-- A class shaped like `BaseKivyApp`: `__config_props__ = ('inspect',)`
(app.py line 134) and a boolean `inspect` property (app.py line 152),
modelled with scalars in `Int`. -/
def exCls : PyClass Int :=
  { config_props_chain := [some ["inspect"]],
    attrs := [("inspect", .prop (.v 0))] }

/-- A childless, hookless instance of `exCls` with `inspect` at its
default. -/
def exObj : PObj Int :=
  .inst exCls [("inspect", .v 0)] none none none none true

/-- A config dict whose only key is not a declared property of `exCls`. -/
def exCfg : CVal Int := .cfg [("evil", .v 7)]

/-- The instance after `apply_config(exObj, exCfg)`: the undeclared key
was injected as an attribute. -/
def exObjAfter : PObj Int :=
  .inst exCls [("inspect", .v 0), ("evil", .v 7)] none none none none true

/-- A `BaseKivyApp`-style instance: its declared children dict is
`{'app': obj}` (app.py lines 189-190), i.e. the object itself. -/
def exApp : PObj Int :=
  .inst exCls [("inspect", .v 0)] (some [("app", .one .selfRef)])
    none none none true

/-- A childless instance of `exCls` with `inspect` set to 3, used as a
declared child. -/
def exInner : PObj Int :=
  .inst exCls [("inspect", .v 3)] none none none none true

/-- An instance with one single-object child, one dict child and one list
child, all holding `exInner`. -/
def exRoot : PObj Int :=
  .inst exCls [("inspect", .v 0)]
    (some [("o", .one (.obj exInner)),
           ("d", .dictc [("k", .obj exInner)]),
           ("l", .listc [.obj exInner])])
    none none none true

/-- The config dict `read_config_from_object(exRoot)` produces: the three
children in declaration order, then the root's own property. -/
def exCfgd : ConfigDict Int :=
  [("o", .cfg [("inspect", .v 3)]),
   ("d", .cfg [("k", .cfg [("inspect", .v 3)])]),
   ("l", .lst [.cfg [("inspect", .v 3)]]),
   ("inspect", .v 0)]

/-- An empty `TimeLine`. -/
def tl0 : TimeLine := { slices := [], slice_names := [], box_children := [] }

/-- The slice widget `add_slice` builds for `add_slice('a')` with the
default `duration=0`, `size_hint_x=None`, no `text` keyword. -/
def tlSliceA : TLSlice :=
  { name := "a", text := "a", duration := 0, size_hint_x := 0 }

/-- `tl0` after `add_slice('a')`. -/
def tlA : TimeLine :=
  { slices := [.sl tlSliceA], slice_names := ["a"],
    box_children := [tlSliceA] }

/-! # Theorems

Everything from here on is a lemma or a theorem; no further definitions. -/

/-! ## Dictionary lemmas -/

theorem lookupK_append {β : Type} (d e : List (String × β)) (x : String) :
    lookupK (d ++ e) x =
      match lookupK d x with
      | some v => some v
      | none => lookupK e x := by
  induction d with
  | nil => simp [lookupK]
  | cons hd tl ih =>
      obtain ⟨k0, v0⟩ := hd
      by_cases h : k0 = x <;> simp [lookupK, h, ih]

theorem lookupK_mapset_ne {β : Type} (d : List (String × β)) (k : String)
    (v : β) (x : String) (hx : x ≠ k) :
    lookupK (d.map (fun kv => if kv.1 = k then (k, v) else kv)) x
      = lookupK d x := by
  induction d with
  | nil => simp [lookupK]
  | cons hd tl ih =>
      obtain ⟨k0, v0⟩ := hd
      rw [List.map_cons]
      by_cases h0 : k0 = k
      · subst h0
        rw [if_pos (show (k0, v0).1 = k0 from rfl)]
        have hkx : ¬ (k0 = x) := fun h => hx h.symm
        simp [lookupK, hkx, ih]
      · rw [if_neg (show ¬ ((k0, v0).1 = k) from h0)]
        by_cases h0x : k0 = x <;> simp [lookupK, h0x, ih]

theorem lookupK_mapset_self {β : Type} (d : List (String × β))
    (k : String) (v : β) (hd : hasK d k = true) :
    lookupK (d.map (fun kv => if kv.1 = k then (k, v) else kv)) k
      = some v := by
  induction d with
  | nil => simp [hasK, lookupK] at hd
  | cons hd0 tl ih =>
      obtain ⟨k0, v0⟩ := hd0
      rw [List.map_cons]
      by_cases h0 : k0 = k
      · subst h0
        rw [if_pos (show (k0, v0).1 = k0 from rfl)]
        simp [lookupK]
      · rw [if_neg (show ¬ ((k0, v0).1 = k) from h0)]
        simp [hasK, lookupK, h0] at hd
        simpa [lookupK, h0] using ih (by simp [hasK, hd])

theorem lookupK_dictSet {β : Type} (d : List (String × β)) (k : String)
    (v : β) (x : String) :
    lookupK (dictSet d k v) x = if x = k then some v else lookupK d x := by
  by_cases hk : hasK d k
  · by_cases hx : x = k
    · subst hx
      simp [dictSet, hk, lookupK_mapset_self d x v hk]
    · simp [dictSet, hk, lookupK_mapset_ne d k v x hx, hx]
  · by_cases hx : x = k
    · subst hx
      have hnone : lookupK d x = none := by
        simp [hasK] at hk
        exact Option.not_isSome_iff_eq_none.mp (by simpa using hk)
      simp [dictSet, hk, lookupK_append, hnone, lookupK]
    · have hkx : ¬ (k = x) := fun h => hx h.symm
      simp [dictSet, hk, lookupK_append, hx, hkx, lookupK]
      cases h : lookupK d x <;> simp

theorem mem_dictSet {β : Type} {d : List (String × β)} {k : String}
    {v : β} {kv : String × β} (h : kv ∈ dictSet d k v) :
    kv ∈ d ∨ kv = (k, v) := by
  unfold dictSet at h
  by_cases hk : hasK d k
  · simp only [hk, if_true] at h
    rw [List.mem_map] at h
    obtain ⟨kv0, hkv0, heq⟩ := h
    by_cases hab : kv0.1 = k
    · right
      simp [hab] at heq
      exact heq.symm
    · left
      simp [hab] at heq
      exact heq ▸ hkv0
  · rw [if_neg hk] at h
    rw [List.mem_append, List.mem_singleton] at h
    exact h

theorem lookupK_foldSet_not_mem {β : Type} (kvs : List (String × β))
    (d : List (String × β)) (x : String)
    (hx : x ∉ kvs.map Prod.fst) :
    lookupK (kvs.foldl (fun a kv => dictSet a kv.1 kv.2) d) x
      = lookupK d x := by
  induction kvs generalizing d with
  | nil => simp
  | cons hd tl ih =>
      obtain ⟨k0, v0⟩ := hd
      simp only [List.map_cons, List.mem_cons, not_or] at hx
      rw [List.foldl_cons, ih (dictSet d k0 v0) hx.2,
        lookupK_dictSet, if_neg hx.1]

theorem lookupK_foldSet_mem_nodup {β : Type} (kvs : List (String × β))
    (d : List (String × β)) (k : String) (v : β)
    (hnd : (kvs.map Prod.fst).Nodup) (hmem : (k, v) ∈ kvs) :
    lookupK (kvs.foldl (fun a kv => dictSet a kv.1 kv.2) d) k = some v := by
  induction kvs generalizing d with
  | nil => simp at hmem
  | cons hd tl ih =>
      obtain ⟨k0, v0⟩ := hd
      simp only [List.map_cons, List.nodup_cons] at hnd
      rcases List.mem_cons.mp hmem with heq | htl
      · obtain ⟨hk, hv⟩ := Prod.mk.injEq .. ▸ heq
        subst hk
        subst hv
        rw [List.foldl_cons,
          lookupK_foldSet_not_mem tl (dictSet d k v) k hnd.1,
          lookupK_dictSet, if_pos rfl]
      · rw [List.foldl_cons]
        exact ih (dictSet d k0 v0) hnd.2 htl

theorem getattrInst_dictSet_of_eq {α : Type} (c : PyClass α)
    (attrs : List (String × CVal α)) (k : String) (v : CVal α) (x : String)
    (hkv : getattrInst c attrs k = some v) :
    getattrInst c (dictSet attrs k v) x = getattrInst c attrs x := by
  by_cases hx : x = k
  · subst hx
    rw [getattrInst, lookupK_dictSet, if_pos rfl]
    exact hkv.symm
  · rw [getattrInst, lookupK_dictSet, if_neg hx]
    rfl

theorem getattrInst_foldSet_id {α : Type} (c : PyClass α)
    (kvs : List (String × CVal α)) (attrs : List (String × CVal α))
    (h : ∀ kv ∈ kvs, getattrInst c attrs kv.1 = some kv.2) (x : String) :
    getattrInst c (kvs.foldl (fun a kv => dictSet a kv.1 kv.2) attrs) x
      = getattrInst c attrs x := by
  induction kvs generalizing attrs with
  | nil => simp
  | cons hd tl ih =>
      obtain ⟨k0, v0⟩ := hd
      have hhd : getattrInst c attrs k0 = some v0 := h (k0, v0) (by simp)
      have hstep : ∀ y, getattrInst c (dictSet attrs k0 v0) y
          = getattrInst c attrs y :=
        fun y => getattrInst_dictSet_of_eq c attrs k0 v0 y hhd
      rw [List.foldl_cons,
        ih (dictSet attrs k0 v0)
          (fun kv hkv => (hstep kv.1).trans (h kv (by simp [hkv]))),
        hstep x]

theorem getattrInst_foldSet_not_mem {α : Type} (c : PyClass α)
    (kvs attrs : List (String × CVal α)) (x : String)
    (hx : x ∉ kvs.map Prod.fst) :
    getattrInst c (kvs.foldl (fun a kv => dictSet a kv.1 kv.2) attrs) x
      = getattrInst c attrs x := by
  rw [getattrInst, getattrInst, lookupK_foldSet_not_mem kvs attrs x hx]

theorem getattrInst_foldSet_mem_nodup {α : Type} (c : PyClass α)
    (kvs attrs : List (String × CVal α)) (k : String) (v : CVal α)
    (hnd : (kvs.map Prod.fst).Nodup) (hmem : (k, v) ∈ kvs) :
    getattrInst c (kvs.foldl (fun a kv => dictSet a kv.1 kv.2) attrs) k
      = some v := by
  rw [getattrInst, lookupK_foldSet_mem_nodup kvs attrs k v hnd hmem]

/-! ## Unfolding lemmas for the recursive config functions -/

theorem apply_config_props_only_eq {α : Type} (obj : PObj α) (cfg : CVal α) :
    apply_config obj cfg true = apply_props_only obj cfg := by
  rw [apply_config.eq_def]
  simp

theorem apply_config_inst_none {α : Type} (c : PyClass α)
    (attrs : List (String × CVal α)) (gcp : Option (List (String × CVal α)))
    (acp aci : Option (List String)) (t : Bool) (cfg : CVal α) :
    apply_config (.inst c attrs none gcp acp aci t) cfg false
      = apply_props_only (.inst c attrs none gcp acp aci t) cfg := by
  rw [apply_config.eq_def]
  simp

theorem apply_config_inst_some {α : Type} (c : PyClass α)
    (attrs : List (String × CVal α)) (cs : List (String × Child α))
    (gcp : Option (List (String × CVal α))) (acp aci : Option (List String))
    (t : Bool) (cfg : CVal α) :
    apply_config (.inst c attrs (some cs) gcp acp aci t) cfg false
      = apply_with_children (.inst c attrs (some cs) gcp acp aci t) cs cfg := by
  rw [apply_config.eq_def]
  simp

theorem apply_with_children_eq {α : Type} (root : PObj α)
    (cs : List (String × Child α)) (cfg : CVal α) :
    apply_with_children root cs cfg
      = match apply_config_to_declared_objects root cs cfg with
        | .error e => .error e
        | .ok (r, cs2) =>
            let obj2 := setChildren r cs2
            if selfInValues cs then .ok obj2
            else apply_props_only obj2 cfg := by
  rw [apply_with_children.eq_def]

theorem read_config_props_only_eq {α : Type} (obj : PObj α) :
    read_config_from_object obj true = read_props_part obj [] := by
  rw [read_config_from_object.eq_def]
  simp

theorem read_config_inst_none {α : Type} (c : PyClass α)
    (attrs : List (String × CVal α)) (gcp : Option (List (String × CVal α)))
    (acp aci : Option (List String)) (t : Bool) :
    read_config_from_object (.inst c attrs none gcp acp aci t) false
      = read_props_part (.inst c attrs none gcp acp aci t) [] := by
  rw [read_config_from_object.eq_def]
  simp

theorem read_config_inst_some {α : Type} (c : PyClass α)
    (attrs : List (String × CVal α)) (cs : List (String × Child α))
    (gcp : Option (List (String × CVal α))) (acp aci : Option (List String))
    (t : Bool) :
    read_config_from_object (.inst c attrs (some cs) gcp acp aci t) false
      = read_with_children (.inst c attrs (some cs) gcp acp aci t) cs := by
  rw [read_config_from_object.eq_def]
  simp

theorem read_config_cls_none {α : Type} (c : PyClass α) :
    read_config_from_object (.cls c none) false
      = read_props_part (.cls c none) [] := by
  rw [read_config_from_object.eq_def]
  simp

theorem read_with_children_eq {α : Type} (root : PObj α)
    (cs : List (String × Child α)) :
    read_with_children root cs
      = match fill_config_from_declared_objects root cs with
        | .error e => .error e
        | .ok config =>
            if selfInValues cs then .ok config
            else read_props_part root config := by
  rw [read_with_children.eq_def]

/-! ## Structure of `apply_config` -/

theorem apply_props_only_inst {α : Type} (c : PyClass α)
    (attrs : List (String × CVal α))
    (ch : Option (List (String × Child α)))
    (gcp : Option (List (String × CVal α))) (acp aci : Option (List String))
    (cv : ConfigDict α) :
    apply_props_only (.inst c attrs ch gcp acp aci true) (.cfg cv)
      = .ok (.inst c
          (((cv.filter
              (fun kv => !(((ch.getD []).map Prod.fst).contains kv.1))).filter
            (fun kv => !((acp.getD []).contains kv.1))).foldl
            (fun ats kv => setattrK ats kv.1 kv.2) attrs)
          ch gcp acp aci true) := by
  rfl

theorem apply_child_root_eq {α : Type} (root : PObj α) (c : Child α)
    (sub : CVal α) (r1 : PObj α) (c1 : Child α)
    (hc : childIsSelf c = false)
    (h : apply_child root c sub = .ok (r1, c1)) :
    r1 = root ∧ c1 = c ∨
      ∃ o o2, c = .one (.obj o) ∧ r1 = root ∧ c1 = .one (.obj o2) := by
  cases c with
  | one e =>
      cases e with
      | selfRef => simp [childIsSelf] at hc
      | obj o =>
          rw [apply_child] at h
          cases hap : apply_config o sub false with
          | error e2 => rw [hap] at h; exact absurd h (by simp)
          | ok o2 =>
              rw [hap] at h
              simp only [Except.ok.injEq, Prod.mk.injEq] at h
              exact Or.inr ⟨o, o2, rfl, h.1.symm, h.2.symm⟩
  | dictc m =>
      rw [apply_child] at h
      cases hap : apply_to_collection m.isEmpty sub with
      | error e2 => rw [hap] at h; exact absurd h (by simp)
      | ok u =>
          rw [hap] at h
          simp only [Except.ok.injEq, Prod.mk.injEq] at h
          exact Or.inl ⟨h.1.symm, h.2.symm⟩
  | listc l =>
      rw [apply_child] at h
      cases hap : apply_to_collection l.isEmpty sub with
      | error e2 => rw [hap] at h; exact absurd h (by simp)
      | ok u =>
          rw [hap] at h
          simp only [Except.ok.injEq, Prod.mk.injEq] at h
          exact Or.inl ⟨h.1.symm, h.2.symm⟩

theorem apply_declared_root_eq {α : Type} (cs : List (String × Child α))
    (root : PObj α) (cfg : CVal α) (r : PObj α)
    (cs2 : List (String × Child α))
    (hself : selfInValues cs = false)
    (h : apply_config_to_declared_objects root cs cfg = .ok (r, cs2)) :
    r = root ∧ cs2.map Prod.fst = cs.map Prod.fst := by
  induction cs generalizing root r cs2 with
  | nil =>
      rw [apply_config_to_declared_objects] at h
      simp only [Except.ok.injEq, Prod.mk.injEq] at h
      simp [← h.1, ← h.2]
  | cons hd tl ih =>
      obtain ⟨name, c⟩ := hd
      have hcself : childIsSelf c = false := by
        simp [selfInValues] at hself
        exact hself.1
      have htlself : selfInValues tl = false := by
        simp [selfInValues] at hself ⊢
        exact hself.2
      rw [apply_config_to_declared_objects] at h
      split at h
      · -- name not in config: the child is kept, the root is threaded through
        split at h
        · simp at h
        · rename_i r2 rest2 heq2
          simp only [Except.ok.injEq, Prod.mk.injEq] at h
          obtain ⟨hr2, htl2⟩ := ih root r2 rest2 htlself heq2
          refine ⟨h.1.symm.trans hr2, ?_⟩
          rw [← h.2]
          simp [htl2]
      · rename_i sub hlook
        split at h
        · -- the apply_config_instance hook handled the child
          split at h
          · simp at h
          · rename_i r2 rest2 heq2
            simp only [Except.ok.injEq, Prod.mk.injEq] at h
            obtain ⟨hr2, htl2⟩ := ih root r2 rest2 htlself heq2
            refine ⟨h.1.symm.trans hr2, ?_⟩
            rw [← h.2]
            simp [htl2]
        · split at h
          · simp at h
          · rename_i r1 c1 hch
            have hr1 : r1 = root := by
              rcases apply_child_root_eq root c sub r1 c1 hcself hch with
                hcase | ⟨o, o2, _, hr, _⟩
              · exact hcase.1
              · exact hr
            split at h
            · simp at h
            · rename_i r2 rest2 heq2
              rw [hr1] at heq2
              simp only [Except.ok.injEq, Prod.mk.injEq] at h
              obtain ⟨hr2, htl2⟩ := ih root r2 rest2 htlself heq2
              refine ⟨h.1.symm.trans hr2, ?_⟩
              rw [← h.2]
              simp [htl2]

theorem filter_not_contains_nil {α : Type} (cv : ConfigDict α) :
    cv.filter (fun kv => !(([] : List String).contains kv.1)) = cv := by
  apply List.filter_eq_self.mpr
  intro kv _
  simp

theorem mem_filter_not_contains {α : Type} {cv : ConfigDict α}
    {names : List String} {k : String} {v : CVal α}
    (hmem : (k, v) ∈ cv) (hk : k ∉ names) :
    (k, v) ∈ cv.filter (fun kv => !(names.contains kv.1)) := by
  apply List.mem_filter.mpr
  exact ⟨hmem, by simpa using hk⟩

theorem nodup_filter_keys {α : Type} (cv : ConfigDict α)
    (p : String × CVal α → Bool) (hnd : (cv.map Prod.fst).Nodup) :
    ((cv.filter p).map Prod.fst).Nodup :=
  List.Nodup.sublist (List.Sublist.map Prod.fst (List.filter_sublist cv)) hnd

/-- Claim C1, corrected (counterexample): `apply_config` on a
`BaseKivyApp`-shaped instance whose only declared property is `inspect`
sets the undeclared config key `evil` on the instance, even though
`_get_settings_attrs` does not list it: the property-name whitelist the
spec asserts does not exist in `apply_config`. -/
theorem apply_config_injects_undeclared_key :
    _get_settings_attrs exCls = .ok ["inspect"]
      ∧ ("evil" ∈ ["inspect"] → False)
      ∧ apply_config exObj exCfg false = .ok exObjAfter
      ∧ getattrObj exObjAfter "evil" = some (.v 7) := by
  refine ⟨rfl, by decide, ?_, rfl⟩
  unfold exObj exCfg
  rw [apply_config_inst_none]
  rfl

/-- Claim C1, amended: `apply_config(obj, config)` does not whitelist
against the class's `__config_props__`: for an instance (truthy, not a
value of its own declared-children dict), every key of the config dict
that is not a declared child name and not reported consumed by
`apply_config_properties` is set on the object by `setattr` — whether or
not it is declared in `_get_settings_attrs` of the class. -/
theorem apply_config_sets_unwhitelisted_keys {α : Type}
    (c : PyClass α) (attrs : List (String × CVal α))
    (ch : Option (List (String × Child α)))
    (gcp : Option (List (String × CVal α)))
    (acp aci : Option (List String))
    (cv : ConfigDict α) (k : String) (v : CVal α) (obj2 : PObj α)
    (hself : selfInValues (ch.getD []) = false)
    (hok : apply_config (.inst c attrs ch gcp acp aci true) (.cfg cv) false
      = .ok obj2)
    (hnd : (cv.map Prod.fst).Nodup)
    (hmem : (k, v) ∈ cv)
    (hchild : k ∉ (ch.getD []).map Prod.fst)
    (hacp : k ∉ acp.getD []) :
    getattrObj obj2 k = some v := by
  cases ch with
  | none =>
      rw [apply_config_inst_none, apply_props_only_inst] at hok
      simp only [Except.ok.injEq] at hok
      subst hok
      simp only [Option.getD_none, List.map_nil] at hchild ⊢
      rw [filter_not_contains_nil]
      have hmem2 : (k, v) ∈ cv.filter
          (fun kv => !((acp.getD []).contains kv.1)) :=
        mem_filter_not_contains hmem hacp
      have hnd2 := nodup_filter_keys cv
        (fun kv => !((acp.getD []).contains kv.1)) hnd
      simpa [getattrObj, setattrK] using
        getattrInst_foldSet_mem_nodup c _ attrs k v hnd2 hmem2
  | some cs =>
      simp only [Option.getD_some] at hself hchild
      rw [apply_config_inst_some, apply_with_children_eq] at hok
      cases hdec : apply_config_to_declared_objects
          (.inst c attrs (some cs) gcp acp aci true) cs (.cfg cv) with
      | error e => rw [hdec] at hok; exact absurd hok (by simp)
      | ok p =>
          obtain ⟨r, cs2⟩ := p
          rw [hdec] at hok
          obtain ⟨hr, hnames⟩ :=
            apply_declared_root_eq cs _ (.cfg cv) r cs2 hself hdec
          simp only [hself, if_neg, Bool.false_eq_true,
            not_false_eq_true] at hok
          subst hr
          rw [show setChildren
              (PObj.inst c attrs (some cs) gcp acp aci true) cs2
              = .inst c attrs (some cs2) gcp acp aci true from rfl] at hok
          rw [apply_props_only_inst] at hok
          simp only [Except.ok.injEq] at hok
          subst hok
          have hchild2 : k ∉ (List.map Prod.fst cs2) := by
            rw [hnames]; exact hchild
          have hmem1 : (k, v) ∈ cv.filter
              (fun kv => !((((some cs2).getD []).map Prod.fst).contains
                kv.1)) := by
            simp only [Option.getD_some]
            exact mem_filter_not_contains hmem hchild2
          have hmem2 :
              (k, v) ∈ (cv.filter
                (fun kv => !((((some cs2).getD []).map Prod.fst).contains
                  kv.1))).filter
                (fun kv => !((acp.getD []).contains kv.1)) :=
            mem_filter_not_contains hmem1 hacp
          have hnd2 : ((((cv.filter
              (fun kv => !((((some cs2).getD []).map Prod.fst).contains
                  kv.1))).filter
              (fun kv => !((acp.getD []).contains kv.1))).map
              Prod.fst).Nodup) :=
            nodup_filter_keys _ _ (nodup_filter_keys _ _ hnd)
          simpa [getattrObj, setattrK] using
            getattrInst_foldSet_mem_nodup c _ attrs k v hnd2 hmem2

/-- Witness for the amended claim C1: the undeclared key `evil` of the
config is set on the concrete childless instance. -/
theorem apply_config_sets_unwhitelisted_keys_witness :
    (apply_config exObj exCfg false = .ok exObjAfter)
      ∧ getattrObj exObjAfter "evil" = some (.v 7) := by
  have hok : apply_config exObj exCfg false = .ok exObjAfter := by
    unfold exObj exCfg
    rw [apply_config_inst_none]
    rfl
  refine ⟨hok, ?_⟩
  exact apply_config_sets_unwhitelisted_keys exCls [("inspect", .v 0)]
    none none none none [("evil", .v 7)] "evil" (.v 7) exObjAfter
    rfl hok (by simp) (by simp) (by simp) (by simp)

/-- Claim C2: for an instance with no declared children
(`get_config_instances` absent) and no `apply_config_properties` hook,
after `apply_config(obj, config)` every attribute named by a key of the
config dict holds the config's value (the file wins), and every declared
property of the class not named in the config keeps the value it had
before the call (the default it was initialized with). -/
theorem apply_config_merge_file_wins {α : Type}
    (c : PyClass α) (attrs : List (String × CVal α))
    (gcp : Option (List (String × CVal α))) (aci : Option (List String))
    (cv : ConfigDict α) (props : List String)
    (hnd : (cv.map Prod.fst).Nodup)
    (hprops : _get_settings_attrs c = .ok props) :
    ∃ obj2,
      apply_config (.inst c attrs none gcp none aci true) (.cfg cv) false
        = .ok obj2
      ∧ (∀ k v, (k, v) ∈ cv → getattrObj obj2 k = some v)
      ∧ (∀ a, a ∈ props → a ∉ cv.map Prod.fst →
          getattrObj obj2 a
            = getattrObj (.inst c attrs none gcp none aci true) a) := by
  rw [apply_config_inst_none, apply_props_only_inst]
  refine ⟨_, rfl, ?_, ?_⟩
  · intro k v hkv
    simp only [Option.getD_none, List.map_nil, filter_not_contains_nil]
    have hmem2 : (k, v) ∈ cv.filter
        (fun kv => !(([] : List String).contains kv.1)) :=
      mem_filter_not_contains hkv (by simp)
    rw [filter_not_contains_nil] at hmem2
    have hflt : cv.filter (fun kv => !(([] : List String).contains kv.1))
        = cv := filter_not_contains_nil cv
    simpa [getattrObj, setattrK, hflt] using
      getattrInst_foldSet_mem_nodup c cv attrs k v hnd hkv
  · intro a _ ha
    simp only [Option.getD_none, List.map_nil, filter_not_contains_nil]
    simpa [getattrObj, setattrK, filter_not_contains_nil] using
      getattrInst_foldSet_not_mem c cv attrs a ha

/-- Witness for claim C2: on a concrete childless, hookless instance, the
config value for `inspect` wins and a declared property missing from the
config keeps its prior value. -/
theorem apply_config_merge_file_wins_witness :
    (([("inspect", CVal.v (5 : Int))].map Prod.fst).Nodup
      ∧ _get_settings_attrs exCls = .ok ["inspect"])
    ∧ ∃ obj2,
      apply_config (.inst exCls [("inspect", .v 0)] none none none none
        true) (.cfg [("inspect", .v 5)]) false = .ok obj2
      ∧ (∀ k v, (k, v) ∈ [("inspect", CVal.v (5 : Int))] →
          getattrObj obj2 k = some v)
      ∧ (∀ a, a ∈ ["inspect"] →
          a ∉ [("inspect", CVal.v (5 : Int))].map Prod.fst →
          getattrObj obj2 a
            = getattrObj (.inst exCls [("inspect", .v 0)] none none none
                none true) a) :=
  ⟨⟨by simp, rfl⟩,
    apply_config_merge_file_wins exCls [("inspect", .v 0)] none none
      [("inspect", .v 5)] ["inspect"] (by simp) rfl⟩

theorem instPropsLoop_ok {α : Type} (c : PyClass α)
    (attrs : List (String × CVal α)) (props : List String)
    (config : ConfigDict α)
    (hres : ∀ a ∈ props, (getattrInst c attrs a).isSome)
    (hP : ∀ kv ∈ config, getattrInst c attrs kv.1 = some kv.2) :
    ∃ out, instPropsLoop c attrs props config = .ok out
      ∧ ∀ kv ∈ out, getattrInst c attrs kv.1 = some kv.2 := by
  induction props generalizing config with
  | nil => exact ⟨config, rfl, hP⟩
  | cons a rest ih =>
      by_cases hhas : hasK config a
      · obtain ⟨out, hout, hPout⟩ :=
          ih config (fun b hb => hres b (by simp [hb])) hP
        exact ⟨out, by rw [instPropsLoop, if_pos hhas]; exact hout, hPout⟩
      · cases hget : getattrInst c attrs a with
        | none =>
            have := hres a (by simp)
            rw [hget] at this
            simp at this
        | some v =>
            have hP2 : ∀ kv ∈ dictSet config a v,
                getattrInst c attrs kv.1 = some kv.2 := by
              intro kv hkv
              rcases mem_dictSet hkv with hin | heq
              · exact hP kv hin
              · rw [heq]; exact hget
            obtain ⟨out, hout, hPout⟩ :=
              ih (dictSet config a v)
                (fun b hb => hres b (by simp [hb])) hP2
            refine ⟨out, ?_, hPout⟩
            rw [instPropsLoop, if_neg hhas, hget]
            exact hout

/-- Claim C3: round-trip.  For an instance with no declared children and
no `get_config_properties` / `apply_config_properties` hooks, applying the
config read from the object back onto it leaves every declared property
unchanged. -/
theorem read_apply_round_trip {α : Type} (c : PyClass α)
    (attrs : List (String × CVal α)) (aci : Option (List String))
    (props : List String)
    (hprops : _get_settings_attrs c = .ok props)
    (hres : ∀ a ∈ props, (getattrInst c attrs a).isSome) :
    ∃ cfgd,
      read_config_from_object (.inst c attrs none none none aci true) false
        = .ok cfgd
      ∧ ∃ obj2,
        apply_config (.inst c attrs none none none aci true) (.cfg cfgd)
          false = .ok obj2
        ∧ ∀ a ∈ props,
            getattrObj obj2 a
              = getattrObj (.inst c attrs none none none aci true) a := by
  obtain ⟨out, hout, hPout⟩ :=
    instPropsLoop_ok c attrs props [] hres (by simp)
  have hread : read_config_from_object
      (.inst c attrs none none none aci true) false = .ok out := by
    rw [read_config_inst_none]
    simp only [read_props_part, hprops]
    exact hout
  refine ⟨out, hread, ?_⟩
  rw [apply_config_inst_none, apply_props_only_inst]
  refine ⟨_, rfl, ?_⟩
  intro a _
  simp only [Option.getD_none, List.map_nil, filter_not_contains_nil,
    getattrObj]
  simpa [setattrK, filter_not_contains_nil] using
    getattrInst_foldSet_id c out attrs hPout a

/-- Witness for claim C3 on a concrete childless, hookless instance. -/
theorem read_apply_round_trip_witness :
    (_get_settings_attrs exCls = .ok ["inspect"]
      ∧ ∀ a ∈ ["inspect"],
          (getattrInst exCls [("inspect", CVal.v (0 : Int))] a).isSome)
    ∧ ∃ cfgd,
      read_config_from_object
        (.inst exCls [("inspect", .v 0)] none none none none true) false
        = .ok cfgd
      ∧ ∃ obj2,
        apply_config (.inst exCls [("inspect", .v 0)] none none none none
          true) (.cfg cfgd) false = .ok obj2
        ∧ ∀ a ∈ ["inspect"],
            getattrObj obj2 a
              = getattrObj (.inst exCls [("inspect", .v 0)] none none none
                  none true) a :=
  ⟨⟨rfl, by intro a ha; simp only [List.mem_singleton] at ha; subst ha; rfl⟩,
    read_apply_round_trip exCls [("inspect", .v 0)] none ["inspect"] rfl
      (by intro a ha; simp only [List.mem_singleton] at ha; subst ha; rfl)⟩

/-- Claim C4: `read_config_from_file` returns the empty dict when opening
the file raises `IOError` (in particular for a missing file), and also
when the file's YAML content parses to `None` (an empty file). -/
theorem read_config_from_file_missing_or_empty {α : Type}
    (yaml_loads : String → Option (ConfigDict α)) :
    read_config_from_file none yaml_loads = []
      ∧ ∀ s, yaml_loads s = none
        → read_config_from_file (some s) yaml_loads = [] := by
  refine ⟨rfl, ?_⟩
  intro s h
  simp [read_config_from_file, h]

/-- Witness for claim C4: a loader that parses the empty document to
`None`. -/
theorem read_config_from_file_missing_or_empty_witness :
    read_config_from_file none (fun _ => (none : Option (ConfigDict Int)))
      = []
    ∧ read_config_from_file (some "")
        (fun _ => (none : Option (ConfigDict Int))) = [] := by
  have h := read_config_from_file_missing_or_empty
    (fun _ => (none : Option (ConfigDict Int)))
  exact ⟨h.1, h.2 "" rfl⟩

/-- Claim C5: `app_error` (and `app_error_async` for coroutines) passes a
normal return through unchanged; a raised exception is caught and not
re-raised (the wrapper returns `None`), and the exception together with
its formatted traceback string is delivered to `report_exception_in_app`,
which calls the running app's `handle_exception` when an app is running
and logs the error otherwise. -/
theorem app_error_reports_exceptions {β γ : Type}
    (func : γ → Except Exn β) (stack : String) (x : γ) :
    (∀ v, func x = .ok v → ∀ ar,
      app_error func stack ar x = (some v, none)
        ∧ app_error_async func stack ar x = (some v, none))
    ∧ (∀ e, func x = .error e → ∀ ar,
        app_error func stack ar x = (none,
          some (report_exception_in_app ar e
            (some (format_wrapper_err stack e))))
        ∧ app_error_async func stack ar x = (none,
          some (report_exception_in_app ar e
            (some (format_wrapper_err stack e))))
        ∧ report_exception_in_app true e
            (some (format_wrapper_err stack e))
          = .toApp e (some (format_wrapper_err stack e))
        ∧ report_exception_in_app false e
            (some (format_wrapper_err stack e))
          = .logged e (some (format_wrapper_err stack e))) := by
  constructor
  · intro v h ar
    constructor <;> simp [app_error, app_error_async, h]
  · intro e h ar
    refine ⟨?_, ?_, rfl, rfl⟩ <;>
      simp [app_error, app_error_async, h]

/-- Witness for claim C5: a function that returns normally is passed
through; one that raises has its exception logged (no app running) with
the formatted traceback. -/
theorem app_error_reports_exceptions_witness :
    app_error (fun _ : Unit => (.ok 1 : Except Exn Nat)) "st" true ()
      = (some 1, none)
    ∧ app_error (fun _ : Unit =>
          (.error ⟨"m", "tb", "ln"⟩ : Except Exn Nat)) "st" false ()
      = (none, some (.logged ⟨"m", "tb", "ln"⟩
          (some (format_wrapper_err "st" ⟨"m", "tb", "ln"⟩)))) := by
  constructor
  · exact ((app_error_reports_exceptions
      (fun _ : Unit => (.ok 1 : Except Exn Nat)) "st" ()).1 1 rfl true).1
  · have h := ((app_error_reports_exceptions
      (fun _ : Unit => (.error ⟨"m", "tb", "ln"⟩ : Except Exn Nat)) "st"
        ()).2 ⟨"m", "tb", "ln"⟩ rfl false)
    exact h.1.trans (by rw [h.2.2.2])

theorem lookupK_mem {β : Type} {d : List (String × β)} {k : String}
    {v : β} (h : lookupK d k = some v) : (k, v) ∈ d := by
  induction d with
  | nil => simp [lookupK] at h
  | cons hd tl ih =>
      obtain ⟨k0, v0⟩ := hd
      rw [lookupK] at h
      by_cases hk : k0 = k
      · rw [if_pos hk] at h
        simp only [Option.some.injEq] at h
        simp [hk, h]
      · rw [if_neg hk] at h
        exact List.mem_cons_of_mem _ (ih h)

theorem lookupK_none_not_mem {β : Type} {d : List (String × β)}
    {k : String} (h : lookupK d k = none) : k ∉ d.map Prod.fst := by
  induction d with
  | nil => simp
  | cons hd tl ih =>
      obtain ⟨k0, v0⟩ := hd
      rw [lookupK] at h
      by_cases hk : k0 = k
      · rw [if_pos hk] at h; simp at h
      · rw [if_neg hk] at h
        simp only [List.map_cons, List.mem_cons, not_or]
        exact ⟨fun he => hk he.symm, ih h⟩

/-! ## `init_config`: the merged parser's view of the option -/

theorem lookupK_not_mem_none {β : Type} {d : List (String × β)}
    {k : String} (h : k ∉ d.map Prod.fst) : lookupK d k = none := by
  induction d with
  | nil => rfl
  | cons hd tl ih =>
      obtain ⟨k0, v0⟩ := hd
      simp only [List.map_cons, List.mem_cons, not_or] at h
      rw [lookupK, if_neg (fun he => h.1 he.symm)]
      exact ih h.2

theorem parser_read_get_no_section (ini : IniData) (p : IniData)
    (s o : String) (hs : lookupK ini s = none) :
    get_option (parser_read p ini) s o = get_option p s o := by
  induction ini generalizing p with
  | nil => rfl
  | cons hd tl ih =>
      obtain ⟨s1, opts1⟩ := hd
      rw [lookupK] at hs
      by_cases h1 : s1 = s
      · rw [if_pos h1] at hs; simp at hs
      · rw [if_neg h1] at hs
        have hstep : ∀ q : List (String × String),
            get_option (dictSet p s1 q) s o = get_option p s o := by
          intro q
          rw [get_option, get_option, lookupK_dictSet,
            if_neg (fun h => h1 h.symm)]
        rw [parser_read, List.foldl_cons, ← parser_read]
        cases hlp : lookupK p s1 with
        | none =>
            simp only [hlp]
            rw [ih _ hs, hstep]
        | some cur =>
            simp only [hlp]
            rw [ih _ hs, hstep]

theorem parser_read_get_section_some (ini : IniData) (p : IniData)
    (s o w : String) (opts : List (String × String))
    (hnds : (ini.map Prod.fst).Nodup)
    (hs : lookupK ini s = some opts)
    (hndo : (opts.map Prod.fst).Nodup)
    (ho : lookupK opts o = some w) :
    get_option (parser_read p ini) s o = some w := by
  induction ini generalizing p with
  | nil => simp [lookupK] at hs
  | cons hd tl ih =>
      obtain ⟨s1, opts1⟩ := hd
      simp only [List.map_cons, List.nodup_cons] at hnds
      rw [lookupK] at hs
      rw [parser_read, List.foldl_cons, ← parser_read]
      by_cases h1 : s1 = s
      · subst h1
        rw [if_pos rfl] at hs
        simp only [Option.some.injEq] at hs
        subst hs
        have htl : lookupK tl s1 = none := lookupK_not_mem_none hnds.1
        cases hlp : lookupK p s1 with
        | none =>
            simp only [hlp]
            rw [parser_read_get_no_section tl _ s1 o htl, get_option,
              lookupK_dictSet, if_pos rfl]
            exact ho
        | some cur =>
            simp only [hlp]
            rw [parser_read_get_no_section tl _ s1 o htl, get_option,
              lookupK_dictSet, if_pos rfl]
            exact lookupK_foldSet_mem_nodup _ cur o w hndo
              (lookupK_mem ho)
      · rw [if_neg h1] at hs
        cases hlp : lookupK p s1 with
        | none =>
            simp only [hlp]
            exact ih _ hnds.2 hs
        | some cur =>
            simp only [hlp]
            exact ih _ hnds.2 hs

theorem parser_read_get_section_no_option (ini : IniData) (p : IniData)
    (s o : String) (opts : List (String × String))
    (hnds : (ini.map Prod.fst).Nodup)
    (hs : lookupK ini s = some opts)
    (ho : lookupK opts o = none) :
    get_option (parser_read p ini) s o = get_option p s o := by
  induction ini generalizing p with
  | nil => simp [lookupK] at hs
  | cons hd tl ih =>
      obtain ⟨s1, opts1⟩ := hd
      simp only [List.map_cons, List.nodup_cons] at hnds
      rw [lookupK] at hs
      rw [parser_read, List.foldl_cons, ← parser_read]
      by_cases h1 : s1 = s
      · subst h1
        rw [if_pos rfl] at hs
        simp only [Option.some.injEq] at hs
        subst hs
        have htl : lookupK tl s1 = none := lookupK_not_mem_none hnds.1
        have hom := lookupK_none_not_mem ho
        cases hlp : lookupK p s1 with
        | none =>
            simp only [hlp]
            rw [parser_read_get_no_section tl _ s1 o htl, get_option,
              lookupK_dictSet, if_pos rfl, get_option, hlp]
            simpa using ho
        | some cur =>
            simp only [hlp]
            rw [parser_read_get_no_section tl _ s1 o htl, get_option,
              lookupK_dictSet, if_pos rfl, get_option, hlp]
            exact lookupK_foldSet_not_mem _ cur o hom
      · rw [if_neg h1] at hs
        have hstep : ∀ q : List (String × String),
            get_option (dictSet p s1 q) s o = get_option p s o := by
          intro q
          rw [get_option, get_option, lookupK_dictSet,
            if_neg (fun h => h1 h.symm)]
        cases hlp : lookupK p s1 with
        | none =>
            simp only [hlp]
            rw [ih _ hnds.2 hs, hstep]
        | some cur =>
            simp only [hlp]
            rw [ih _ hnds.2 hs, hstep]

/-- Claim C8: the YAML config path property defaults to `'config.yaml'`
(app.py line 136), and `init_config` stores into `json_config_path` the
value of option `'json_config_path'` of section `'App'` of `config.ini`
when the INI file has it, keeping the current value otherwise — so the
INI file determines which YAML config file the app uses. -/
theorem init_config_reads_ini_path :
    json_config_path_default = "config.yaml"
    ∧ (∀ (cur : String) (ini : IniData) (pth : String)
        (opts : List (String × String)),
        (ini.map Prod.fst).Nodup →
        lookupK ini "App" = some opts →
        (opts.map Prod.fst).Nodup →
        lookupK opts "json_config_path" = some pth →
        init_config cur ini = some pth)
    ∧ (∀ (cur : String) (ini : IniData),
        (ini.map Prod.fst).Nodup →
        get_option ini "App" "json_config_path" = none →
        init_config cur ini = some cur) := by
  have hseed : ∀ cur ini, init_config cur ini
      = get_option
          (parser_read [("App", [("json_config_path", cur)])] ini)
          "App" "json_config_path" := fun cur ini => rfl
  refine ⟨rfl, ?_, ?_⟩
  · intro cur ini pth opts hnds hs hndo ho
    rw [hseed]
    exact parser_read_get_section_some ini _ "App" "json_config_path"
      pth opts hnds hs hndo ho
  · intro cur ini hnds hnone
    rw [hseed]
    rw [get_option] at hnone
    cases hs : lookupK ini "App" with
    | none =>
        rw [parser_read_get_no_section ini _ "App" "json_config_path" hs]
        rfl
    | some opts =>
        rw [hs] at hnone
        rw [parser_read_get_section_no_option ini _ "App"
          "json_config_path" opts hnds hs hnone]
        rfl

/-- Witness for claim C8: an INI file naming `other.yaml` redirects the
path; an empty INI file keeps the default `config.yaml`. -/
theorem init_config_reads_ini_path_witness :
    json_config_path_default = "config.yaml"
    ∧ init_config "config.yaml"
        [("App", [("json_config_path", "other.yaml")])]
      = some "other.yaml"
    ∧ init_config "config.yaml" [] = some "config.yaml" :=
  ⟨init_config_reads_ini_path.1,
    init_config_reads_ini_path.2.1 "config.yaml"
      [("App", [("json_config_path", "other.yaml")])] "other.yaml"
      [("json_config_path", "other.yaml")] (by simp) rfl (by simp) rfl,
    init_config_reads_ini_path.2.2 "config.yaml" [] (by simp) rfl⟩

theorem add_item_notify_preserves (st : ErrorIndicator) (level : String)
    (lv : Nat) :
    (add_item_notify st level lv).count = st.count
      ∧ (add_item_notify st level lv).container = st.container := by
  unfold add_item_notify
  split
  · split <;> exact ⟨rfl, rfl⟩
  · split
    · split <;> exact ⟨rfl, rfl⟩
    · exact ⟨rfl, rfl⟩

/-- Claim C9: `ErrorIndicatorBehavior.add_item(text, level)` raises
`ValueError` exactly when `level` is not one of `error`, `warning`,
`info`; on an invalid level the state is returned unchanged because the
check precedes every mutation, and on a valid level (with the log
container present) `count` grows by exactly one and exactly one item is
appended to the container. -/
theorem add_item_level_check (st : ErrorIndicator) (text level : String) :
    (level ∉ ["error", "warning", "info"] →
      add_item st text level = .error (.valueError, st))
    ∧ (level ∈ ["error", "warning", "info"] →
        (∀ st2, ¬ add_item st text level = .error (.valueError, st2))
        ∧ ∀ l, st.container = some l →
            ∃ st2, add_item st text level = .ok st2
              ∧ st2.count = st.count + 1
              ∧ st2.container = some (l ++ [⟨text, level⟩])) := by
  constructor
  · intro hmem
    have h1 : ("error" : String) ≠ level := fun h => hmem (by simp [← h])
    have h2 : ("warning" : String) ≠ level := fun h => hmem (by simp [← h])
    have h3 : ("info" : String) ≠ level := fun h => hmem (by simp [← h])
    unfold add_item
    simp [levels, lookupK, h1, h2, h3]
  · intro hmem
    have hmain : ∀ lv, lookupK levels level = some lv →
        (∀ st2, ¬ add_item st text level = .error (.valueError, st2))
        ∧ ∀ l, st.container = some l →
            ∃ st2, add_item st text level = .ok st2
              ∧ st2.count = st.count + 1
              ∧ st2.container = some (l ++ [⟨text, level⟩]) := by
      intro lv hlv
      have hpr := add_item_notify_preserves
        { st with count := st.count + 1 } level lv
      constructor
      · intro st2 hcontra
        unfold add_item at hcontra
        rw [hlv] at hcontra
        cases hc : (add_item_notify { st with count := st.count + 1 }
            level lv).container with
        | none => simp only [hc] at hcontra; simp at hcontra
        | some items => simp only [hc] at hcontra; simp at hcontra
      · intro l hcont
        unfold add_item
        rw [hlv]
        have hc : (add_item_notify { st with count := st.count + 1 }
            level lv).container = some l := by
          rw [hpr.2]
          exact hcont
        simp only [hc]
        exact ⟨_, rfl, by simp [hpr.1], rfl⟩
    rcases (show level = "error" ∨ level = "warning" ∨ level = "info" by
      simpa using hmem) with rfl | rfl | rfl
    · exact hmain 0 rfl
    · exact hmain 1 rfl
    · exact hmain 2 rfl

/-- Witness for claim C9: a bogus level raises `ValueError` leaving the
state unchanged; level `warning` succeeds, bumps `count` and appends the
item. -/
theorem add_item_level_check_witness :
    add_item ⟨0, "ok", false, some []⟩ "t" "bogus"
      = .error (.valueError, ⟨0, "ok", false, some []⟩)
    ∧ ∃ st2, add_item ⟨0, "ok", false, some []⟩ "t" "warning" = .ok st2
        ∧ st2.count = 0 + 1
        ∧ st2.container = some ([] ++ [⟨"t", "warning"⟩]) := by
  constructor
  · exact (add_item_level_check ⟨0, "ok", false, some []⟩ "t" "bogus").1
      (by decide)
  · exact ((add_item_level_check ⟨0, "ok", false, some []⟩ "t"
      "warning").2 (by decide)).2 [] rfl

/-- Claim C10 (code bug): with `before=None`, `add_slice(name)` appends
the new slice (the last element of `slice_names` is `name` after
`_update_attrs`); but with `before` naming an existing slice, the call
`self.slices.insert(s, i)` (graphics.py line 890) passes the new slice as
the index argument of `list.insert`, so it raises `TypeError` instead of
inserting the slice before `before`. -/
theorem add_slice_insert_args_swapped :
    add_slice tl0 "a" none 0 none none = .ok tlA
      ∧ tlA.slice_names.getLast? = some "a"
      ∧ add_slice tlA "new" (some "a") 0 none none = .error .typeError := by
  refine ⟨?_, rfl, ?_⟩ <;> rfl

/-! ## Invariants of `_get_settings_attrs` -/

theorem collectProps_invariant {α : Type} (cls : PyClass α)
    (props : List String) (acc acc2 : List String)
    (h : collectProps cls props acc = .ok acc2) :
    (acc.Nodup → acc2.Nodup)
      ∧ (∀ a ∈ acc2, a ∈ acc ∨ hasK cls.attrs a = true)
      ∧ (∀ a ∈ acc, a ∈ acc2) := by
  induction props generalizing acc with
  | nil =>
      rw [collectProps] at h
      simp only [Except.ok.injEq] at h
      subst h
      exact ⟨id, fun a ha => Or.inl ha, fun a ha => ha⟩
  | cons attr rest ih =>
      rw [collectProps] at h
      by_cases hmem : acc.contains attr
      · rw [if_pos hmem] at h
        exact ih acc h
      · rw [if_neg hmem] at h
        by_cases hhas : hasK cls.attrs attr
        · rw [if_pos hhas] at h
          obtain ⟨hnd, hsrc, hext⟩ := ih (acc ++ [attr]) h
          refine ⟨?_, ?_, ?_⟩
          · intro hacc
            apply hnd
            rw [List.nodup_append]
            refine ⟨hacc, List.nodup_singleton attr, ?_⟩
            intro x hx hxa
            rw [List.mem_singleton] at hxa
            exact (show attr ∉ acc by simpa using hmem) (hxa ▸ hx)
          · intro a ha
            rcases hsrc a ha with hin | hk
            · rcases List.mem_append.mp hin with hl | hr
              · exact Or.inl hl
              · right
                rw [List.mem_singleton] at hr
                subst hr
                exact hhas
            · exact Or.inr hk
          · intro a ha
            exact hext a (List.mem_append.mpr (Or.inl ha))
        · rw [if_neg hhas] at h
          exact absurd h (by simp)

theorem collectChain_invariant {α : Type} (cls : PyClass α)
    (chain : List (Option (List String))) (acc acc2 : List String)
    (h : collectChain cls chain acc = .ok acc2) :
    (acc.Nodup → acc2.Nodup)
      ∧ (∀ a ∈ acc2, a ∈ acc ∨ hasK cls.attrs a = true)
      ∧ (∀ a ∈ acc, a ∈ acc2) := by
  induction chain generalizing acc with
  | nil =>
      rw [collectChain] at h
      simp only [Except.ok.injEq] at h
      subst h
      exact ⟨id, fun a ha => Or.inl ha, fun a ha => ha⟩
  | cons hd rest ih =>
      cases hd with
      | none =>
          rw [collectChain] at h
          exact ih acc h
      | some props =>
          rw [collectChain] at h
          cases hcp : collectProps cls props acc with
          | error e => rw [hcp] at h; exact absurd h (by simp)
          | ok acc1 =>
              rw [hcp] at h
              obtain ⟨hnd1, hsrc1, hext1⟩ :=
                collectProps_invariant cls props acc acc1 hcp
              obtain ⟨hnd2, hsrc2, hext2⟩ := ih acc1 h
              refine ⟨fun ha => hnd2 (hnd1 ha), ?_, ?_⟩
              · intro a ha
                rcases hsrc2 a ha with hin | hk
                · exact hsrc1 a hin
                · exact Or.inr hk
              · intro a ha
                exact hext2 a (hext1 a ha)

theorem settings_attrs_nodup_has {α : Type} (c : PyClass α)
    (props : List String) (h : _get_settings_attrs c = .ok props) :
    props.Nodup ∧ ∀ a ∈ props, hasK c.attrs a = true := by
  obtain ⟨hnd, hsrc, _⟩ :=
    collectChain_invariant c c.config_props_chain [] props h
  refine ⟨hnd List.nodup_nil, fun a ha => ?_⟩
  rcases hsrc a ha with hin | hk
  · simp at hin
  · exact hk

/-! ## The property loops of `read_config_from_object` -/

theorem clsPropsLoop_exists {α : Type} (c : PyClass α)
    (props : List String) (config : ConfigDict α)
    (hhas : ∀ a ∈ props, hasK c.attrs a = true) :
    ∃ out, clsPropsLoop c props config = .ok out := by
  induction props generalizing config with
  | nil => exact ⟨config, rfl⟩
  | cons a rest ih =>
      have := hhas a (by simp)
      rw [hasK, Option.isSome_iff_exists] at this
      obtain ⟨av, hav⟩ := this
      obtain ⟨out, hout⟩ :=
        ih (dictSet config a (clsAttrVal av))
          (fun b hb => hhas b (by simp [hb]))
      exact ⟨out, by rw [clsPropsLoop, hav]; exact hout⟩

theorem clsPropsLoop_not_mem_preserves {α : Type} (c : PyClass α)
    (props : List String) (config out : ConfigDict α) (a : String)
    (ha : a ∉ props) (h : clsPropsLoop c props config = .ok out) :
    lookupK out a = lookupK config a := by
  induction props generalizing config with
  | nil =>
      rw [clsPropsLoop] at h
      simp only [Except.ok.injEq] at h
      rw [← h]
  | cons b rest ih =>
      simp only [List.mem_cons, not_or] at ha
      rw [clsPropsLoop] at h
      cases hav : lookupK c.attrs b with
      | none => rw [hav] at h; exact absurd h (by simp)
      | some av =>
          rw [hav] at h
          rw [ih (dictSet config b (clsAttrVal av)) ha.2 h,
            lookupK_dictSet, if_neg ha.1]

theorem clsPropsLoop_mem_lookup {α : Type} (c : PyClass α)
    (props : List String) (config out : ConfigDict α) (a : String)
    (av : ClsAttr α) (hnd : props.Nodup) (ha : a ∈ props)
    (hav : lookupK c.attrs a = some av)
    (h : clsPropsLoop c props config = .ok out) :
    lookupK out a = some (clsAttrVal av) := by
  induction props generalizing config with
  | nil => simp at ha
  | cons b rest ih =>
      simp only [List.nodup_cons] at hnd
      rw [clsPropsLoop] at h
      rcases List.mem_cons.mp ha with heq | htl
      · subst heq
        rw [hav] at h
        rw [clsPropsLoop_not_mem_preserves c rest _ out a hnd.1 h,
          lookupK_dictSet, if_pos rfl]
      · cases hbv : lookupK c.attrs b with
        | none => rw [hbv] at h; exact absurd h (by simp)
        | some bv =>
            rw [hbv] at h
            exact ih (dictSet config b (clsAttrVal bv)) hnd.2 htl h

theorem instPropsLoop_not_mem_preserves {α : Type} (c : PyClass α)
    (attrs : List (String × CVal α)) (props : List String)
    (config out : ConfigDict α) (a : String)
    (ha : a ∉ props) (h : instPropsLoop c attrs props config = .ok out) :
    lookupK out a = lookupK config a := by
  induction props generalizing config with
  | nil =>
      rw [instPropsLoop] at h
      simp only [Except.ok.injEq] at h
      rw [← h]
  | cons b rest ih =>
      simp only [List.mem_cons, not_or] at ha
      rw [instPropsLoop] at h
      by_cases hhas : hasK config b
      · rw [if_pos hhas] at h
        exact ih config ha.2 h
      · rw [if_neg hhas] at h
        cases hbv : getattrInst c attrs b with
        | none => rw [hbv] at h; exact absurd h (by simp)
        | some bv =>
            rw [hbv] at h
            rw [ih (dictSet config b bv) ha.2 h,
              lookupK_dictSet, if_neg ha.1]

theorem instPropsLoop_mem_lookup {α : Type} (c : PyClass α)
    (attrs : List (String × CVal α)) (props : List String)
    (config out : ConfigDict α) (a : String) (v : CVal α)
    (hnd : props.Nodup) (ha : a ∈ props)
    (hv : getattrInst c attrs a = some v)
    (hconf : hasK config a = false)
    (h : instPropsLoop c attrs props config = .ok out) :
    lookupK out a = some v := by
  induction props generalizing config with
  | nil => simp at ha
  | cons b rest ih =>
      simp only [List.nodup_cons] at hnd
      rw [instPropsLoop] at h
      rcases List.mem_cons.mp ha with heq | htl
      · subst heq
        rw [if_neg (by simp [hconf]), hv] at h
        rw [instPropsLoop_not_mem_preserves c attrs rest _ out a hnd.1 h,
          lookupK_dictSet, if_pos rfl]
      · have hab : a ≠ b := fun he => by
          subst he
          exact hnd.1 htl
        by_cases hhas : hasK config b
        · rw [if_pos hhas] at h
          exact ih config hnd.2 htl hconf h
        · rw [if_neg hhas] at h
          cases hbv : getattrInst c attrs b with
          | none => rw [hbv] at h; exact absurd h (by simp)
          | some bv =>
              rw [hbv] at h
              refine ih (dictSet config b bv) hnd.2 htl ?_ h
              rw [hasK, lookupK_dictSet, if_neg hab]
              rw [hasK] at hconf
              exact hconf

/-- Claim C7: for a class, `read_config_from_object` serializes each
declared property to the Kivy property's `defaultvalue`; for an instance
without a `get_config_properties` hook, it serializes each declared
property to the instance's current `getattr` value. -/
theorem read_serializes_defaults_and_values {α : Type} :
    (∀ (c : PyClass α) (props : List String) (a : String) (dv : CVal α),
      _get_settings_attrs c = .ok props → a ∈ props →
      lookupK c.attrs a = some (.prop dv) →
      ∃ cfgd, read_config_from_object (.cls c none) false = .ok cfgd
        ∧ lookupK cfgd a = some dv)
    ∧ (∀ (c : PyClass α) (attrs : List (String × CVal α))
        (aci : Option (List String)) (props : List String) (a : String)
        (v : CVal α),
      _get_settings_attrs c = .ok props →
      (∀ b ∈ props, (getattrInst c attrs b).isSome) →
      a ∈ props → getattrInst c attrs a = some v →
      ∃ cfgd, read_config_from_object
          (.inst c attrs none none none aci true) false = .ok cfgd
        ∧ lookupK cfgd a = some v) := by
  constructor
  · intro c props a dv hprops ha hav
    obtain ⟨hnd, hhas⟩ := settings_attrs_nodup_has c props hprops
    obtain ⟨out, hout⟩ := clsPropsLoop_exists c props [] hhas
    refine ⟨out, ?_, ?_⟩
    · rw [read_config_cls_none]
      simp only [read_props_part, hprops]
      exact hout
    · have := clsPropsLoop_mem_lookup c props [] out a (.prop dv)
        hnd ha hav hout
      simpa [clsAttrVal] using this
  · intro c attrs aci props a v hprops hres ha hv
    obtain ⟨hnd, _⟩ := settings_attrs_nodup_has c props hprops
    obtain ⟨out, hout, _⟩ := instPropsLoop_ok c attrs props [] hres
      (by simp)
    refine ⟨out, ?_, ?_⟩
    · rw [read_config_inst_none]
      simp only [read_props_part, hprops]
      exact hout
    · exact instPropsLoop_mem_lookup c attrs props [] out a v hnd ha hv
        rfl hout

/-- Witness for claim C7 on the concrete `BaseKivyApp`-shaped class and
instance: the class serializes `inspect` to its property default, the
instance to its current value. -/
theorem read_serializes_defaults_and_values_witness :
    (∃ cfgd, read_config_from_object (.cls exCls none) false = .ok cfgd
      ∧ lookupK cfgd "inspect" = some (.v 0))
    ∧ ∃ cfgd, read_config_from_object
        (.inst exCls [("inspect", .v 9)] none none none none true) false
        = .ok cfgd
      ∧ lookupK cfgd "inspect" = some (.v 9) :=
  ⟨read_serializes_defaults_and_values.1 exCls ["inspect"] "inspect"
      (.v 0) rfl (by simp) rfl,
    read_serializes_defaults_and_values.2 exCls [("inspect", .v 9)] none
      ["inspect"] "inspect" (.v 9) rfl
      (by intro b hb; simp only [List.mem_singleton] at hb; subst hb; rfl)
      (by simp) rfl⟩

/-! ## Structure of `read_config_from_object` over declared children -/

theorem hasK_of_mem_keys {β : Type} {d : List (String × β)} {k : String}
    (h : k ∈ d.map Prod.fst) : hasK d k = true := by
  cases hl : lookupK d k with
  | none => exact absurd h (lookupK_none_not_mem hl)
  | some v => simp [hasK, hl]

theorem fill_names {α : Type} (root : PObj α)
    (cs : List (String × Child α)) (config0 : ConfigDict α)
    (h : fill_config_from_declared_objects root cs = .ok config0) :
    config0.map Prod.fst = cs.map Prod.fst := by
  induction cs generalizing config0 with
  | nil =>
      rw [fill_config_from_declared_objects] at h
      simp only [Except.ok.injEq] at h
      rw [← h]
      rfl
  | cons hd tl ih =>
      obtain ⟨name, c⟩ := hd
      rw [fill_config_from_declared_objects] at h
      cases hv : read_child root c with
      | error e => rw [hv] at h; exact absurd h (by simp)
      | ok v =>
          rw [hv] at h
          cases hrest : fill_config_from_declared_objects root tl with
          | error e => rw [hrest] at h; exact absurd h (by simp)
          | ok restv =>
              rw [hrest] at h
              simp only [Except.ok.injEq] at h
              rw [← h]
              simp [ih restv hrest]

theorem fill_lookup {α : Type} (root : PObj α)
    (cs : List (String × Child α)) (config0 : ConfigDict α)
    (name : String) (c : Child α)
    (hnd : (cs.map Prod.fst).Nodup)
    (hmem : (name, c) ∈ cs)
    (h : fill_config_from_declared_objects root cs = .ok config0) :
    ∃ v, read_child root c = .ok v
      ∧ lookupK config0 name = some v := by
  induction cs generalizing config0 with
  | nil => simp at hmem
  | cons hd tl ih =>
      obtain ⟨n0, c0⟩ := hd
      simp only [List.map_cons, List.nodup_cons] at hnd
      rw [fill_config_from_declared_objects] at h
      cases hv : read_child root c0 with
      | error e => rw [hv] at h; exact absurd h (by simp)
      | ok v0 =>
          rw [hv] at h
          cases hrest : fill_config_from_declared_objects root tl with
          | error e => rw [hrest] at h; exact absurd h (by simp)
          | ok restv =>
              rw [hrest] at h
              simp only [Except.ok.injEq] at h
              subst h
              rcases List.mem_cons.mp hmem with heq | htl
              · obtain ⟨hn, hc⟩ := Prod.mk.injEq .. ▸ heq
                subst hn
                subst hc
                exact ⟨v0, hv, by rw [lookupK, if_pos rfl]⟩
              · have hne : n0 ≠ name := by
                  intro he
                  subst he
                  exact hnd.1 (by
                    exact List.mem_map.mpr ⟨(n0, c), htl, rfl⟩)
                obtain ⟨v, hvc, hlv⟩ := ih restv hnd.2 htl hrest
                exact ⟨v, hvc, by rw [lookupK, if_neg hne]; exact hlv⟩

theorem read_entry_map_struct {α : Type} (root : PObj α)
    (m : List (String × Entry α)) (sub : ConfigDict α)
    (h : read_entry_map root m = .ok sub) :
    sub.map Prod.fst = m.map Prod.fst
      ∧ ∀ p ∈ sub, ∃ d, p.2 = CVal.cfg d := by
  induction m generalizing sub with
  | nil =>
      rw [read_entry_map] at h
      simp only [Except.ok.injEq] at h
      rw [← h]
      simp
  | cons hd tl ih =>
      obtain ⟨k, e⟩ := hd
      rw [read_entry_map] at h
      cases hv : read_entry root e with
      | error e2 => rw [hv] at h; exact absurd h (by simp)
      | ok d =>
          rw [hv] at h
          cases hrest : read_entry_map root tl with
          | error e2 => rw [hrest] at h; exact absurd h (by simp)
          | ok restv =>
              rw [hrest] at h
              simp only [Except.ok.injEq] at h
              subst h
              obtain ⟨hnames, hshape⟩ := ih restv hrest
              refine ⟨by simp [hnames], ?_⟩
              intro p hp
              rcases List.mem_cons.mp hp with heq | htl2
              · exact ⟨d, by rw [heq]⟩
              · exact hshape p htl2

theorem read_entry_list_struct {α : Type} (root : PObj α)
    (l : List (Entry α)) (subl : List (CVal α))
    (h : read_entry_list root l = .ok subl) :
    subl.length = l.length
      ∧ ∀ x ∈ subl, ∃ d, x = CVal.cfg d := by
  induction l generalizing subl with
  | nil =>
      rw [read_entry_list] at h
      simp only [Except.ok.injEq] at h
      rw [← h]
      simp
  | cons e tl ih =>
      rw [read_entry_list] at h
      cases hv : read_entry root e with
      | error e2 => rw [hv] at h; exact absurd h (by simp)
      | ok d =>
          rw [hv] at h
          cases hrest : read_entry_list root tl with
          | error e2 => rw [hrest] at h; exact absurd h (by simp)
          | ok restv =>
              rw [hrest] at h
              simp only [Except.ok.injEq] at h
              subst h
              obtain ⟨hlen, hshape⟩ := ih restv hrest
              refine ⟨by simp [hlen], ?_⟩
              intro x hx
              rcases List.mem_cons.mp hx with heq | htl2
              · exact ⟨d, heq⟩
              · exact hshape x htl2

theorem instPropsLoop_preserves_hasK {α : Type} (c : PyClass α)
    (attrs : List (String × CVal α)) (props : List String)
    (config out : ConfigDict α) (k : String)
    (hhk : hasK config k = true)
    (h : instPropsLoop c attrs props config = .ok out) :
    lookupK out k = lookupK config k := by
  induction props generalizing config with
  | nil =>
      rw [instPropsLoop] at h
      simp only [Except.ok.injEq] at h
      rw [← h]
  | cons b rest ih =>
      rw [instPropsLoop] at h
      by_cases hhas : hasK config b
      · rw [if_pos hhas] at h
        exact ih config hhk h
      · rw [if_neg hhas] at h
        have hbk : b ≠ k := by
          intro he
          subst he
          exact hhas hhk
        cases hbv : getattrInst c attrs b with
        | none => rw [hbv] at h; exact absurd h (by simp)
        | some bv =>
            rw [hbv] at h
            have hk2 : hasK (dictSet config b bv) k = true := by
              rw [hasK, lookupK_dictSet, if_neg (fun he => hbk he.symm)]
              rw [hasK] at hhk
              exact hhk
            rw [ih (dictSet config b bv) hk2 h,
              lookupK_dictSet, if_neg (fun he => hbk he.symm)]

theorem inst_read_props_part_preserves {α : Type} (c : PyClass α)
    (attrs : List (String × CVal α))
    (ch : Option (List (String × Child α)))
    (gcp : Option (List (String × CVal α)))
    (acp aci : Option (List String)) (t : Bool)
    (config0 cfgd : ConfigDict α) (k : String)
    (hhk : hasK config0 k = true)
    (hk : k ∉ (gcp.getD []).map Prod.fst)
    (h : read_props_part (.inst c attrs ch gcp acp aci t) config0
      = .ok cfgd) :
    lookupK cfgd k = lookupK config0 k := by
  rw [read_props_part.eq_def] at h
  simp only [] at h
  cases hprops : _get_settings_attrs c with
  | error e => rw [hprops] at h; exact absurd h (by simp)
  | ok props =>
      rw [hprops] at h
      cases gcp with
      | none =>
          simp only at h
          exact instPropsLoop_preserves_hasK c attrs props config0 cfgd k
            hhk h
      | some gd =>
          simp only at h
          have hupd : lookupK (dictUpdate config0 gd) k
              = lookupK config0 k := by
            rw [dictUpdate]
            exact lookupK_foldSet_not_mem gd config0 k
              (by simpa using hk)
          have hk2 : hasK (dictUpdate config0 gd) k = true := by
            rw [hasK, hupd]
            rw [hasK] at hhk
            exact hhk
          rw [instPropsLoop_preserves_hasK c attrs props _ cfgd k hk2 h,
            hupd]

/-- Claim C6: the dict `read_config_from_object(obj)` returns mirrors the
declared object graph: a dict-valued child maps to a mapping from its keys
to config dicts, a list/tuple-valued child maps to a list of config dicts
in the same order, any other child maps to a single config dict; and when
the object appears among its own declared children, only the children's
configs are returned at that level, the self reference being read
props-only (not re-expanded). -/
theorem read_mirrors_object_graph {α : Type} (c : PyClass α)
    (attrs : List (String × CVal α)) (cs : List (String × Child α))
    (gcp : Option (List (String × CVal α)))
    (acp aci : Option (List String)) (t : Bool) (cfgd : ConfigDict α)
    (hnd : (cs.map Prod.fst).Nodup)
    (hgcp : ∀ k ∈ (gcp.getD []).map Prod.fst, k ∉ cs.map Prod.fst)
    (hread : read_config_from_object
      (.inst c attrs (some cs) gcp acp aci t) false = .ok cfgd) :
    (∀ name m, (name, Child.dictc m) ∈ cs →
      ∃ sub, read_entry_map (.inst c attrs (some cs) gcp acp aci t) m
          = .ok sub
        ∧ lookupK cfgd name = some (.cfg sub)
        ∧ sub.map Prod.fst = m.map Prod.fst
        ∧ ∀ p ∈ sub, ∃ d, p.2 = CVal.cfg d)
    ∧ (∀ name l, (name, Child.listc l) ∈ cs →
      ∃ subl, read_entry_list (.inst c attrs (some cs) gcp acp aci t) l
          = .ok subl
        ∧ lookupK cfgd name = some (.lst subl)
        ∧ subl.length = l.length
        ∧ ∀ x ∈ subl, ∃ d, x = CVal.cfg d)
    ∧ (∀ name e, (name, Child.one e) ∈ cs →
      ∃ d, read_entry (.inst c attrs (some cs) gcp acp aci t) e = .ok d
        ∧ lookupK cfgd name = some (.cfg d))
    ∧ (selfInValues cs = true →
        fill_config_from_declared_objects
          (.inst c attrs (some cs) gcp acp aci t) cs = .ok cfgd)
    ∧ read_entry (.inst c attrs (some cs) gcp acp aci t) Entry.selfRef
        = read_props_part (.inst c attrs (some cs) gcp acp aci t) [] := by
  rw [read_config_inst_some, read_with_children_eq] at hread
  cases hfill : fill_config_from_declared_objects
      (.inst c attrs (some cs) gcp acp aci t) cs with
  | error e => rw [hfill] at hread; exact absurd hread (by simp)
  | ok config0 =>
      rw [hfill] at hread
      simp only [] at hread
      have hnames := fill_names _ cs config0 hfill
      have hlook : ∀ name, name ∈ cs.map Prod.fst →
          lookupK cfgd name = lookupK config0 name := by
        intro name hmemn
        by_cases hs : selfInValues cs
        · rw [if_pos hs] at hread
          simp only [Except.ok.injEq] at hread
          rw [← hread]
        · rw [if_neg hs] at hread
          have hhk : hasK config0 name = true :=
            hasK_of_mem_keys (by rw [hnames]; exact hmemn)
          have hkg : name ∉ (gcp.getD []).map Prod.fst :=
            fun hin => hgcp name hin hmemn
          exact inst_read_props_part_preserves c attrs (some cs) gcp acp
            aci t config0 cfgd name hhk hkg hread
      refine ⟨?_, ?_, ?_, ?_, ?_⟩
      · intro name m hmem
        obtain ⟨v, hvc, hlv⟩ :=
          fill_lookup _ cs config0 name (.dictc m) hnd hmem hfill
        rw [read_child] at hvc
        cases hm : read_entry_map
            (.inst c attrs (some cs) gcp acp aci t) m with
        | error e2 => rw [hm] at hvc; exact absurd hvc (by simp)
        | ok sub =>
            rw [hm] at hvc
            simp only [Except.ok.injEq] at hvc
            obtain ⟨hna, hsh⟩ := read_entry_map_struct _ m sub hm
            refine ⟨sub, rfl, ?_, hna, hsh⟩
            rw [hlook name (List.mem_map.mpr ⟨(name, .dictc m), hmem,
              rfl⟩), hlv, ← hvc]
      · intro name l hmem
        obtain ⟨v, hvc, hlv⟩ :=
          fill_lookup _ cs config0 name (.listc l) hnd hmem hfill
        rw [read_child] at hvc
        cases hm : read_entry_list
            (.inst c attrs (some cs) gcp acp aci t) l with
        | error e2 => rw [hm] at hvc; exact absurd hvc (by simp)
        | ok subl =>
            rw [hm] at hvc
            simp only [Except.ok.injEq] at hvc
            obtain ⟨hlen, hsh⟩ := read_entry_list_struct _ l subl hm
            refine ⟨subl, rfl, ?_, hlen, hsh⟩
            rw [hlook name (List.mem_map.mpr ⟨(name, .listc l), hmem,
              rfl⟩), hlv, ← hvc]
      · intro name e hmem
        obtain ⟨v, hvc, hlv⟩ :=
          fill_lookup _ cs config0 name (.one e) hnd hmem hfill
        rw [read_child] at hvc
        cases hm : read_entry
            (.inst c attrs (some cs) gcp acp aci t) e with
        | error e2 => rw [hm] at hvc; exact absurd hvc (by simp)
        | ok d =>
            rw [hm] at hvc
            simp only [Except.ok.injEq] at hvc
            refine ⟨d, rfl, ?_⟩
            rw [hlook name (List.mem_map.mpr ⟨(name, .one e), hmem,
              rfl⟩), hlv, ← hvc]
      · intro hs
        rw [if_pos hs] at hread
        simp only [Except.ok.injEq] at hread
        rw [hread]
      · rw [read_entry]

/-- Witness for claim C6 on a concrete object with a single-object child,
a dict child and a list child. -/
theorem read_mirrors_object_graph_witness :
    (read_config_from_object exRoot false = .ok exCfgd)
    ∧ ∃ d, read_entry exRoot (Entry.obj exInner) = .ok d
        ∧ lookupK exCfgd "o" = some (.cfg d) := by
  have h1 : read_config_from_object exInner false
      = .ok [("inspect", CVal.v 3)] := by
    simp only [exInner]
    rw [read_config_inst_none]
    rfl
  have he : read_entry exRoot (Entry.obj exInner)
      = .ok [("inspect", CVal.v 3)] := by
    rw [read_entry]
    exact h1
  have hc1 : read_child exRoot (.one (.obj exInner))
      = .ok (.cfg [("inspect", CVal.v 3)]) := by
    rw [read_child, he]
  have hm : read_entry_map exRoot [("k", .obj exInner)]
      = .ok [("k", .cfg [("inspect", CVal.v 3)])] := by
    rw [read_entry_map, he, read_entry_map]
  have hc2 : read_child exRoot (.dictc [("k", .obj exInner)])
      = .ok (.cfg [("k", .cfg [("inspect", CVal.v 3)])]) := by
    rw [read_child, hm]
  have hl : read_entry_list exRoot [.obj exInner]
      = .ok [.cfg [("inspect", CVal.v 3)]] := by
    rw [read_entry_list, he, read_entry_list]
  have hc3 : read_child exRoot (.listc [.obj exInner])
      = .ok (.lst [.cfg [("inspect", CVal.v 3)]]) := by
    rw [read_child, hl]
  have hfill : fill_config_from_declared_objects exRoot
      [("o", .one (.obj exInner)),
       ("d", .dictc [("k", .obj exInner)]),
       ("l", .listc [.obj exInner])]
      = .ok [("o", .cfg [("inspect", CVal.v 3)]),
             ("d", .cfg [("k", .cfg [("inspect", CVal.v 3)])]),
             ("l", .lst [.cfg [("inspect", CVal.v 3)]])] := by
    rw [fill_config_from_declared_objects, hc1,
      fill_config_from_declared_objects, hc2,
      fill_config_from_declared_objects, hc3,
      fill_config_from_declared_objects]
  have hfill2 : fill_config_from_declared_objects
      (.inst exCls [("inspect", .v 0)]
        (some [("o", .one (.obj exInner)),
               ("d", .dictc [("k", .obj exInner)]),
               ("l", .listc [.obj exInner])])
        none none none true)
      [("o", .one (.obj exInner)),
       ("d", .dictc [("k", .obj exInner)]),
       ("l", .listc [.obj exInner])]
      = .ok [("o", .cfg [("inspect", CVal.v 3)]),
             ("d", .cfg [("k", .cfg [("inspect", CVal.v 3)])]),
             ("l", .lst [.cfg [("inspect", CVal.v 3)]])] := hfill
  have hread : read_config_from_object exRoot false = .ok exCfgd := by
    show read_config_from_object
      (.inst exCls [("inspect", .v 0)]
        (some [("o", .one (.obj exInner)),
               ("d", .dictc [("k", .obj exInner)]),
               ("l", .listc [.obj exInner])])
        none none none true) false = .ok exCfgd
    rw [read_config_inst_some, read_with_children_eq, hfill2]
    rfl
  refine ⟨hread, ?_⟩
  exact (read_mirrors_object_graph exCls [("inspect", .v 0)]
    [("o", .one (.obj exInner)),
     ("d", .dictc [("k", .obj exInner)]),
     ("l", .listc [.obj exInner])]
    none none none true exCfgd (by simp) (by simp) hread).2.2.1
    "o" (.obj exInner) (by simp)

end BKA
